import Mathlib

/-!
# Passenger UstRouter RemoteSink and the exponential averages

A shallow embedding of `src/agent/UstRouter/RemoteSink/Batcher.h`, `ServerDatabase.h`,
`Server.h`, `Counter.h` and of `src/cxx_supportlib/ExponentialMovingAverage.h`, with the
properties that the specification states about them.

Conventions.
* `size_t` and `unsigned long long` are 64 bits wide, `unsigned int` is 32 bits wide; the
  values are natural numbers and every arithmetic operation of the source is reduced modulo
  the width of its type.
* `assert` / `P_ASSERT_EQ` failures abort the call: the embedded function returns `none`.
* An `ev_tstamp` (a `double`) is a rational number, and the product `now * 1000000` of
  `Batcher::add` is rounded to a `double` as the machine rounds it (`roundToDouble`). The
  `double` sums of the averages are taken over an ordered field, the reals in the theorems, where
  `std::pow` is `Real.rpow`.
* `SystemTime::getUsec()` is a reading of the clock, passed in as an argument.
* `boost::mutex` sections are atomic steps; logging (`P_WARN`) and `cond.notify()` do not
  touch the embedded state.
* A char array is the list of the bytes stored in it from its start; a write past the end of an
  array is undefined and the embedded function returns `none`.
-/

namespace Passenger

/-- Number of values of a `size_t`. -/
def SIZE_T_MOD : Nat := 2 ^ 64

/-- Number of values of an `unsigned int`. -/
def UINT_MOD : Nat := 2 ^ 32

/-- Number of values of an `unsigned long long`. -/
def ULLONG_MOD : Nat := 2 ^ 64

/-- The integer nearest to `x`, a tie going to the even neighbour: the rounding of IEEE 754
arithmetic in its default mode, applied to a significand. -/
def roundNearestEven (x : ℚ) : ℤ :=
  if x - ⌊x⌋ < 1 / 2 then ⌊x⌋
  else if 1 / 2 < x - ⌊x⌋ then ⌊x⌋ + 1
  else if ⌊x⌋ % 2 = 0 then ⌊x⌋
  else ⌊x⌋ + 1

/-- The `double` that an arithmetic operation on doubles returns when its exact result is `x`
(IEEE 754 binary64, round to nearest, ties to even). With `2^e ≤ |x| < 2^(e+1)` the doubles
around `x` are the multiples of `2^(e-52)`, which is a significand of 53 bits, and `x` is rounded
to the nearest of them. The exponent is not bounded here: below `2^-1022` the doubles are spaced
wider, and from `2^1024` on the result is infinite. -/
def roundToDouble (x : ℚ) : ℚ :=
  if x = 0 then 0
  else roundNearestEven (x / (2 : ℚ) ^ (Int.log 2 |x| - 52)) * (2 : ℚ) ^ (Int.log 2 |x| - 52)

namespace UstRouter

/-- Modelled from the spec: `UstRouter/Transaction.h` is not part of the sources. A transaction is
"one telemetry record ready for transmission" with an "owning group key (opaque, hashable
string), serialized body, body size in bytes". -/
structure Transaction where
  groupKey : String
  body : String
  bodySize : Nat
deriving DecidableEq, Repr

/-- Modelled from the spec: transactions form "an ordered, singly-linked, FIFO sequence
(transaction list)"; the `STAILQ` head of the source is the list of its elements, first
element at the head. -/
abbrev TransactionList := List Transaction

/-- The queue(3) operation `STAILQ_CONCAT(head1, head2)`: concatenates the tail queue headed by
`head2` onto the end of the one headed by `head1`, removing all entries from the former.
Returns the new contents of `(head1, head2)`. -/
def STAILQ_CONCAT {α : Type} (head1 head2 : List α) : List α × List α :=
  (head1 ++ head2, [])

/-- The queue(3) operation `STAILQ_SWAP(head1, head2, type)`: swaps the contents of the two tail
queues. Returns the new contents of `(head1, head2)`. -/
def STAILQ_SWAP {α : Type} (head1 head2 : List α) : List α × List α :=
  (head2, head1)

/-- The queue(3) predicate `STAILQ_EMPTY(head)`. -/
def STAILQ_EMPTY {α : Type} (head : List α) : Bool :=
  head.isEmpty

namespace RemoteSink

/-- The data members of `class Batcher` (Batcher.h lines 53-62) that the embedded member
functions read or write; `thread`, `syncher` and `cond` carry no data. -/
structure Batcher where
  limit : Nat
  queued : TransactionList
  bytesQueued : Nat
  bytesProcessing : Nat
  peakSize : Nat
  nQueued : Nat
  nProcessing : Nat
  lastQueueAddTime : Nat
  lastProcessingBeginTime : Nat
  lastProcessingEndTime : Nat
  quit : Bool
deriving DecidableEq, Repr

namespace Batcher

/-- The assignment `lastQueueAddTime = now * 1000000` of `add` (line 213): the product of the
doubles `now` and `1000000.0` is a double (`roundToDouble` of the exact product), and the
conversion to `unsigned long long` drops its fraction. The conversion is undefined in the source
for a product of `-1` or less, which is 0 here, and for one of `2^64` or more, which is reduced
modulo `2^64` here; a product below `2^-1022` has no fraction to keep and is 0 in both. -/
def usecOfTstamp (now : ℚ) : Nat :=
  Int.toNat ⌊roundToDouble (now * 1000000)⌋ % ULLONG_MOD

/-- What a call of `add` leaves behind: the returned flag, the Batcher, and the caller's
`transactions` list (passed by reference, line 199). -/
structure AddResult where
  accepted : Bool
  batcher : Batcher
  transactions : TransactionList
deriving DecidableEq, Repr

/-- `Batcher::add` (Batcher.h lines 199-218). -/
def add (self : Batcher) (transactions : TransactionList) (totalBodySize count : Nat)
    (now : ℚ) : Option AddResult :=
  if self.quit then
    none
  else if (self.bytesQueued + self.bytesProcessing) % SIZE_T_MOD > self.limit then
    some ⟨false, self, transactions⟩
  else
    let bytesQueued := (self.bytesQueued + totalBodySize) % SIZE_T_MOD
    let nQueued := (self.nQueued + count) % UINT_MOD
    let peakSize := max self.peakSize ((bytesQueued + self.bytesProcessing) % SIZE_T_MOD)
    let lastQueueAddTime := usecOfTstamp now
    let lists := STAILQ_CONCAT transactions self.queued
    some ⟨true,
      { self with
        bytesQueued := bytesQueued
        nQueued := nQueued
        peakSize := peakSize
        lastQueueAddTime := lastQueueAddTime
        queued := lists.2 },
      lists.1⟩

/-- `Batcher::consumeQueue` (Batcher.h lines 105-121); `usec` is the reading of
`SystemTime::getUsec()`. The local list `processing` starts out empty. Returns the list handed
to the worker and the Batcher afterwards. -/
def consumeQueue (self : Batcher) (usec : Nat) : Option (TransactionList × Batcher) :=
  let processing : TransactionList := []
  if self.bytesProcessing ≠ 0 then
    none
  else if self.nProcessing ≠ 0 then
    none
  else
    let bytesProcessing := self.bytesQueued
    let nProcessing := self.nQueued
    let lists := STAILQ_SWAP self.queued processing
    some (lists.2,
      { self with
        bytesProcessing := bytesProcessing
        nProcessing := nProcessing
        queued := lists.1
        bytesQueued := 0
        nQueued := 0
        lastProcessingBeginTime := usec })

/-- `Batcher::clearProcessingStatistics` (Batcher.h lines 150-154); `usec` is the reading of
`SystemTime::getUsec()`. -/
def clearProcessingStatistics (self : Batcher) (usec : Nat) : Batcher :=
  { self with
    bytesProcessing := 0
    nProcessing := 0
    lastProcessingEndTime := usec }

/-- The Batcher right after construction (Batcher.h lines 166-172): `quit(false)` and an empty
queue. The constructor leaves `limit`, the counters and the timestamps unset; `limit` is an
argument here and the counters and timestamps start at zero. -/
def initial (limit : Nat) : Batcher :=
  { limit := limit
    queued := []
    bytesQueued := 0
    bytesProcessing := 0
    peakSize := 0
    nQueued := 0
    nProcessing := 0
    lastQueueAddTime := 0
    lastProcessingBeginTime := 0
    lastProcessingEndTime := 0
    quit := false }

/-- One call on the Batcher's counters and queue, with its arguments. -/
inductive Op where
  | add (transactions : TransactionList) (totalBodySize count : Nat) (now : ℚ)
  | consumeQueue (usec : Nat)
  | clearProcessingStatistics (usec : Nat)

/-- The bytes an operation offers to the Batcher: `totalBodySize` for `add`, nothing otherwise. -/
def Op.offeredBytes : Op → Nat
  | .add _ totalBodySize _ _ => totalBodySize
  | .consumeQueue _ => 0
  | .clearProcessingStatistics _ => 0

/-- The Batcher after one operation; `none` when an assertion of the called function fails. -/
def applyOp (self : Batcher) : Op → Option Batcher
  | .add transactions totalBodySize count now =>
      (self.add transactions totalBodySize count now).map (fun r => r.batcher)
  | .consumeQueue usec => (self.consumeQueue usec).map (fun r => r.2)
  | .clearProcessingStatistics usec => some (self.clearProcessingStatistics usec)

/-- The Batcher after a sequence of operations, first operation first. -/
def run (self : Batcher) : List Op → Option Batcher
  | [] => some self
  | op :: ops => (self.applyOp op).bind (fun next => next.run ops)

end Batcher

/-- Modelled from the spec: the `Batch` type is not part of the sources. A batch is "a contiguous
run of transactions" with a combined size. -/
structure Batch where
  transactions : TransactionList
deriving DecidableEq, Repr

/-- The combined size of a list of transactions. -/
def totalBodySize (transactions : TransactionList) : Nat :=
  (transactions.map (fun t => t.bodySize)).sum

/-- The combined size of the transactions of a batch. -/
def Batch.size (batch : Batch) : Nat :=
  totalBodySize batch.transactions

/-- The transactions of a list of batches, in order. -/
def batchContents (batches : List Batch) : TransactionList :=
  (batches.map (fun b => b.transactions)).flatten

namespace BatchingAlgorithm

/-- Modelled from the spec: `BatchingAlgorithm::organizeTransactionsBySize` is not part of the
sources. Step 1: "Partition the input list in one pass into an undersized list (each element's
size < strive size) and an oversized list (each element's size ≥ strive size), preserving relative
order within each partition." Every element is moved out of the input. Returns the new contents of
`(transactions, undersizedTransactions, oversizedTransactions)`. -/
def organizeTransactionsBySize (transactions undersizedTransactions
    oversizedTransactions : TransactionList) (threshold : Nat) :
    TransactionList × TransactionList × TransactionList :=
  let parts := transactions.partition (fun t => decide (t.bodySize < threshold))
  ([], undersizedTransactions ++ parts.1, oversizedTransactions ++ parts.2)

/-- Modelled from the spec: `BatchingAlgorithm::organizeUndersizedTransactionsIntoBatches` is not
part of the sources. Step 2 merges "consecutive undersized transactions into batches": the list
is arranged so that every batch is a run of neighbours, which keeps the order of the list. -/
def organizeUndersizedTransactionsIntoBatches (undersizedTransactions : TransactionList)
    (_threshold : Nat) : TransactionList :=
  undersizedTransactions

/-- Modelled from the spec: the cut of step 2. "a batch is closed (and a new one started) as soon
as adding the next transaction would exceed the target, unless the batch is still empty".
`current` is the batch under construction. -/
def closeBatches (threshold : Nat) : TransactionList → TransactionList → List Batch
  | current, [] => if current.isEmpty then [] else [⟨current⟩]
  | current, t :: rest =>
      if !current.isEmpty && decide (totalBodySize current + t.bodySize > threshold) then
        ⟨current⟩ :: closeBatches threshold [t] rest
      else
        closeBatches threshold (current ++ [t]) rest

/-- Modelled from the spec: `BatchingAlgorithm::createBatchObjectsForUndersizedTransactions` is
not part of the sources. Steps 2 and 4: the undersized list is cut into batches, which are
appended to the destination batch list. -/
def createBatchObjectsForUndersizedTransactions (undersizedTransactions : TransactionList)
    (batches : List Batch) (threshold : Nat) : List Batch :=
  batches ++ closeBatches threshold [] undersizedTransactions

/-- Modelled from the spec: `BatchingAlgorithm::createBatchObjectsForOversizedTransactions` is not
part of the sources. Steps 3 and 4: "Each oversized transaction becomes its own batch", appended
to the destination batch list. -/
def createBatchObjectsForOversizedTransactions (oversizedTransactions : TransactionList)
    (batches : List Batch) (_threshold : Nat) : List Batch :=
  batches ++ oversizedTransactions.map (fun t => ⟨[t]⟩)

end BatchingAlgorithm

namespace Batcher

/-- `Batcher::performBatching` (Batcher.h lines 123-148). `striveBatchSize` is not declared in the
class and is an argument here. Returns the caller's `transactions` list afterwards and the batch
list passed to `sendOutBatches` (whose body is a TODO). -/
def performBatching (striveBatchSize : Nat) (transactions : TransactionList) :
    Option (TransactionList × List Batch) :=
  let undersizedTransactions : TransactionList := []
  let oversizedTransactions : TransactionList := []
  let organized := BatchingAlgorithm.organizeTransactionsBySize transactions
    undersizedTransactions oversizedTransactions striveBatchSize
  if !STAILQ_EMPTY organized.1 then
    none
  else
    let undersizedTransactions := BatchingAlgorithm.organizeUndersizedTransactionsIntoBatches
      organized.2.1 striveBatchSize
    let batches : List Batch := []
    let batches := BatchingAlgorithm.createBatchObjectsForUndersizedTransactions
      undersizedTransactions batches striveBatchSize
    let batches := BatchingAlgorithm.createBatchObjectsForOversizedTransactions
      organized.2.2 batches striveBatchSize
    some (organized.1, batches)

/-- Where the worker thread stands in `realThreadMain` (Batcher.h lines 74-103). -/
inductive WorkerPc where
  /-- Holding the lock at the head of `while (true)` (line 78). -/
  | loop
  /-- Inside `cond.wait(l)` (line 81), woken up and holding the lock again. -/
  | waiting
  /-- After `l.unlock()` (line 93), with the consumed list in the local `transactions`. -/
  | batching (transactions : TransactionList)
  /-- After `return` (line 88). -/
  | returned
deriving DecidableEq, Repr

/-- One step of `realThreadMain` (Batcher.h lines 78-102) from a program point: the lock-holding
section up to the next point where the lock is released or the function returns. `usec` is the
reading of `SystemTime::getUsec()` in the step. `none`: an assertion fails, or the thread has
returned and takes no step. -/
def realThreadMainStep (striveBatchSize usec : Nat) (self : Batcher) :
    WorkerPc → Option (Batcher × WorkerPc)
  | .loop | .waiting =>
      if !self.quit && STAILQ_EMPTY self.queued then
        some (self, .waiting)
      else if STAILQ_EMPTY self.queued then
        if self.quit then some (self, .returned) else some (self, .loop)
      else
        match self.consumeQueue usec with
        | none => none
        | some (transactions, next) => some (next, .batching transactions)
  | .batching transactions =>
      match performBatching striveBatchSize transactions with
      | none => none
      | some _ => some (self.clearProcessingStatistics usec, .loop)
  | .returned => none

end Batcher

/-- Modelled from the spec: `DataStructures/StringKeyTable.h` is not part of the sources. A table
from string keys to values, holding at most one value per key ("deduplicated (a key queued twice
counts once)"); here the list of its entries in insertion order. -/
abbrev StringKeyTable (V : Type) := List (String × V)

namespace StringKeyTable

/-- Modelled from the spec: `StringKeyTable::lookup(key, &value)`, the value stored under `key`,
if there is one. -/
def lookup {V : Type} (table : StringKeyTable V) (key : String) : Option V :=
  List.lookup key table

/-- Modelled from the spec: `StringKeyTable::insert(key, value, overwrite)`. A key that is not in
the table is added with `value`; a key that is in the table keeps its entry unless `overwrite` is
set ("enqueues ... idempotently"). -/
def insert {V : Type} (table : StringKeyTable V) (key : String) (value : V)
    (overwrite : Bool) : StringKeyTable V :=
  match table.lookup key with
  | none => table ++ [(key, value)]
  | some _ =>
      if overwrite then
        table.map (fun entry => if entry.1 == key then (key, value) else entry)
      else
        table

/-- Whether `key` has an entry in the table. -/
def contains {V : Type} (table : StringKeyTable V) (key : String) : Bool :=
  (table.lookup key).isSome

end StringKeyTable

namespace ServerDatabase

/-- `ServerDatabase::KeyInfo` (ServerDatabase.h lines 50-65). -/
structure KeyInfo where
  groupId : String
  lastCheckTime : Nat
  lastRejectionErrorTime : Nat
  recheckTimeoutWhenAllHealthy : Nat
  recheckTimeoutWhenHaveErrors : Nat
  allServersHealthy : Bool
deriving DecidableEq, Repr

end ServerDatabase

/-- The tables of `class ServerDatabase` that `getGroupIdsForKeys` reads or writes: the KeyInfo
table `keys` (line 82), and the pending-lookup set `queuedGroupIdToKeyLookups` with the list
`queuedGroupIdToKeyLookupCallbacks` of key arrays waiting for it (lines 109-111; the class does
not declare them). -/
structure ServerDatabase where
  keys : StringKeyTable ServerDatabase.KeyInfo
  queuedGroupIdToKeyLookups : StringKeyTable Bool
  queuedGroupIdToKeyLookupCallbacks : List (List String)
deriving DecidableEq, Repr

namespace ServerDatabase

/-- The first loop of `getGroupIdsForKeys` (ServerDatabase.h lines 96-104) over the keys that are
left: a known key pushes its group id onto `groupIds`, the first unknown key leaves the loop. -/
def lookupGroupIds (table : StringKeyTable KeyInfo) : List String → List String → List String
  | [], groupIds => groupIds
  | key :: rest, groupIds =>
      match table.lookup key with
      | some keyInfo => lookupGroupIds table rest (groupIds ++ [keyInfo.groupId])
      | none => groupIds

/-- The second loop of `getGroupIdsForKeys` (ServerDatabase.h lines 108-110): every key of the
array is inserted into the pending-lookup set, without overwriting. -/
def queueLookups (pending : StringKeyTable Bool) : List String → StringKeyTable Bool
  | [] => pending
  | key :: rest => queueLookups (pending.insert key true false) rest

/-- What a call of `getGroupIdsForKeys` leaves behind: the returned flag, the container
`groupIds`, and the database. -/
structure GetGroupIdsResult where
  result : Bool
  groupIds : List String
  database : ServerDatabase
deriving DecidableEq, Repr

/-- `ServerDatabase::getGroupIdsForKeys` (ServerDatabase.h lines 92-115). The array `keys[]` with
its `count` is the list `keys`; the key looked up in round `i` is `keys[i]`. The source does not
declare the container `groupIds` that the loop fills: `groupIds` is its content at entry, empty
for a fresh container. `callback` and `userData` are not used by the body. -/
def getGroupIdsForKeys (self : ServerDatabase) (keys : List String) (groupIds : List String) :
    GetGroupIdsResult :=
  let count := keys.length
  let groupIds := lookupGroupIds self.keys keys groupIds
  if groupIds.length == count then
    ⟨true, groupIds, self⟩
  else
    ⟨false, groupIds,
      { self with
        queuedGroupIdToKeyLookups := queueLookups self.queuedGroupIdToKeyLookups keys
        queuedGroupIdToKeyLookupCallbacks := self.queuedGroupIdToKeyLookupCallbacks ++ [keys] }⟩

end ServerDatabase
end RemoteSink
end UstRouter
end Passenger

namespace Passenger

/-- The data members of `DiscExponentialAverage` (ExponentialMovingAverage.h lines 79-80), with
the `double` sums taken over exact numbers `K`. The template arguments `alpha`, `maxAge` and
`alphaTimeUnit` are arguments of the member functions. -/
structure DiscExponentialAverage (K : Type) where
  sumOfWeights : K
  sumOfData : K
  sumOfSquaredData : K
  prevTime : Nat

namespace DiscExponentialAverage

variable {K : Type} [LinearOrderedField K]

/-- `DiscExponentialAverage::floatingAlpha` (lines 82-84). -/
def floatingAlpha (alpha : Nat) : K :=
  (alpha : K) / 1000

/-- `DiscExponentialAverage::newDataWeightUpperBound` (lines 86-88). `pow` is `std::pow` of
`<cmath>`, an argument so that the definition stays executable; over the reals it is
`Real.rpow`. -/
def newDataWeightUpperBound (pow : K → K → K) (alpha maxAge alphaTimeUnit : Nat) : K :=
  1 - pow (floatingAlpha alpha) ((maxAge : K) / (alphaTimeUnit : K))

/-- The constructor `DiscExponentialAverage()` (lines 91-96). -/
def init : DiscExponentialAverage K :=
  { sumOfWeights := 0, sumOfData := 0, sumOfSquaredData := 0, prevTime := 0 }

/-- `DiscExponentialAverage::update` (lines 98-112). -/
def update (pow : K → K → K) (alpha maxAge alphaTimeUnit : Nat)
    (self : DiscExponentialAverage K) (value : K) (now : Nat) : DiscExponentialAverage K :=
  if now ≤ self.prevTime then
    self
  else
    let weightReductionFactor := pow (floatingAlpha alpha)
      (((now - self.prevTime : Nat) : K) / (alphaTimeUnit : K))
    let newDataWeight := min (1 - weightReductionFactor)
      (newDataWeightUpperBound pow alpha maxAge alphaTimeUnit)
    { sumOfWeights := weightReductionFactor * self.sumOfWeights + newDataWeight
      sumOfData := weightReductionFactor * self.sumOfData + newDataWeight * value
      sumOfSquaredData := weightReductionFactor * self.sumOfSquaredData
        + newDataWeight * pow value 2
      prevTime := now }

/-- `DiscExponentialAverage::available` (lines 114-116). -/
def available (self : DiscExponentialAverage K) : Bool :=
  decide (self.sumOfWeights > 0)

/-- `DiscExponentialAverage::completeness` (lines 118-120). The difference `now - prevTime` is
taken in `unsigned long long`. -/
def completeness (pow : K → K → K) (alpha : Nat) (self : DiscExponentialAverage K)
    (now : Nat) : K :=
  pow (floatingAlpha alpha) (((now + ULLONG_MOD - self.prevTime) % ULLONG_MOD : Nat) : K)
    * self.sumOfWeights

/-- `DiscExponentialAverage::average` (lines 122-124). -/
def average (self : DiscExponentialAverage K) : K :=
  self.sumOfData / self.sumOfWeights

/-- `DiscExponentialAverage::stddev` (lines 126-128); `sqrt` is `std::sqrt` of `<cmath>`. -/
def stddev (sqrt : K → K) (pow : K → K → K) (self : DiscExponentialAverage K) : K :=
  sqrt (self.sumOfSquaredData / self.sumOfWeights - pow self.average 2)

/-- The state after a sequence of `update(value, now)` calls, first call first. -/
def updates (pow : K → K → K) (alpha maxAge alphaTimeUnit : Nat)
    (self : DiscExponentialAverage K) (calls : List (K × Nat)) : DiscExponentialAverage K :=
  calls.foldl (fun state call => update pow alpha maxAge alphaTimeUnit state call.1 call.2) self

end DiscExponentialAverage

/-- `exponentialMovingAverage` (ExponentialMovingAverage.h lines 140-147), over exact numbers
`K`. The source gives `nullValue` the default `-1`. -/
def exponentialMovingAverage {K : Type} [LinearOrderedField K]
    (prevAverage currentValue alpha nullValue : K) : K :=
  if prevAverage = nullValue then
    currentValue
  else
    alpha * currentValue + (1 - alpha) * prevAverage

namespace UstRouter.RemoteSender

/-- The data members of `class BasicCounter` (Counter.h lines 48-49). -/
structure BasicCounter where
  lastActivity : Nat
  count : Nat
deriving DecidableEq, Repr

namespace BasicCounter

/-- The constructor `BasicCounter()` (Counter.h lines 52-55). -/
def init : BasicCounter :=
  { lastActivity := 0, count := 0 }

/-- `BasicCounter::update` (Counter.h lines 66-73); `usec` is the reading of
`SystemTime::getUsec()`. -/
def update (self : BasicCounter) (value now usec : Nat) : BasicCounter :=
  { self with
    lastActivity := if now = 0 then usec else now
    count := value }

/-- `BasicCounter::increment` (Counter.h lines 57-59). -/
def increment (self : BasicCounter) (now usec : Nat) : BasicCounter :=
  self.update ((self.count + 1) % UINT_MOD) now usec

/-- `BasicCounter::decrement` (Counter.h lines 61-64); `none` when `assert(count > 0)` fails. -/
def decrement (self : BasicCounter) (now usec : Nat) : Option BasicCounter :=
  if self.count > 0 then
    some (self.update (self.count - 1) now usec)
  else
    none

end BasicCounter

/-- The terminating zero byte of a C string. -/
def NUL : Char := Char.ofNat 0

/-- Modelled from the spec: `appendData(pos, end, data)` of `Utils/StrIntUtils.h` is not part of
the sources. It stores `data` at `pos` and returns the position behind it; "construction fails
loudly (fatal/assert) rather than silently truncating beyond the declared capacity bounds", so
data that does not fit in front of `end` gives `none`. `buffer` holds the bytes stored so far
(`pos` is its length) and `endOffset` is the offset of `end` in the array. -/
def appendData (buffer : List Char) (endOffset : Nat) (data : List Char) : Option (List Char) :=
  if buffer.length + data.length ≤ endOffset then some (buffer ++ data) else none

/-- Modelled from the spec: `uintToString(value, output, maxlen)` of `Utils/StrIntUtils.h` is not
part of the sources. It stores the decimal digits of `value` and a terminating zero byte and
returns the number of digits; `none` when they do not fit into `maxlen` bytes. Returns the
digits. -/
def uintToString (value maxlen : Nat) : Option (List Char) :=
  let digits := Nat.toDigits 10 value
  if digits.length < maxlen then some digits else none

/-- The assignment `buffer[index] = byte` on a char array of which the bytes `buffer` have been
stored so far. -/
def storeByte (buffer : List Char) (index : Nat) (byte : Char) : List Char :=
  if index < buffer.length then buffer.set index byte else buffer ++ [byte]

/-- The size of `hostHeader` (Server.h line 45): `sizeof` counts the terminating zero byte. -/
def hostHeaderCapacity : Nat :=
  "Host: gateway.unionstationapp.com".length + 1 + 32

/-- The size of `pingUrl` and of `sinkUrl` (Server.h lines 46-47). -/
def urlCapacity : Nat :=
  "https://[2001:0db8:85a3:0000:0000:8a2e:0370:7334]:3000/sink".length + 1 + 16

/-- The data members of `class Server` (Server.h lines 44-49). Each char array is the list of the
bytes stored in it from its start; the bytes behind them are indeterminate and left out.
`proxyInfo` is only copied and is left out. -/
structure Server where
  hostHeaderSize : Nat
  pingUrlSize : Nat
  sinkUrlSize : Nat
  hostHeader : List Char
  pingUrl : List Char
  sinkUrl : List Char
  certificatePathSize : Nat
  certificatePath : List Char
deriving DecidableEq, Repr

namespace Server

/-- The host header of the constructor (Server.h lines 62-66): the bytes stored in `hostHeader`
in front of the terminating zero byte. -/
def generateHostHeader (hostName : List Char) : Option (List Char) := do
  let endOffset := hostHeaderCapacity - 1
  let pos ← appendData [] endOffset "Host: ".toList
  appendData pos endOffset hostName

/-- The common start of the ping URL and the sink URL (Server.h lines 70-81): scheme, ip (in
brackets when `looksLikeIPv6`), colon and port. `looksLikeIPv6` is not part of the sources and is
an argument. -/
def generateBaseUrl (looksLikeIPv6 : List Char → Bool) (ip : List Char) (port : Nat) :
    Option (List Char) := do
  let endOffset := urlCapacity - 1
  let pos ←
    if looksLikeIPv6 ip then do
      let pos ← appendData [] endOffset "https://[".toList
      let pos ← appendData pos endOffset ip
      appendData pos endOffset "]".toList
    else do
      let pos ← appendData [] endOffset "https://".toList
      appendData pos endOffset ip
  let pos ← appendData pos endOffset ":".toList
  let digits ← uintToString port (endOffset - pos.length)
  some (pos ++ digits)

/-- The constructor `Server::Server` (Server.h lines 53-100). `PATH_MAX` is the constant of
`<limits.h>`. The constructor never assigns `hostHeaderSize`: the member keeps the value
`hostHeaderSize` that its memory held before. A `memcpy` past the end of
`certificatePath[PATH_MAX + 1]` is undefined and gives `none`. -/
def create (looksLikeIPv6 : List Char → Bool) (PATH_MAX hostHeaderSize : Nat)
    (ip : List Char) (port : Nat) (hostName certificate : List Char) : Option Server := do
  let hostHeader ← generateHostHeader hostName
  let endOffset := urlCapacity - 1
  let base ← generateBaseUrl looksLikeIPv6 ip port
  let baseUrlSize := base.length
  let ping ← appendData base endOffset "/ping".toList
  let pingUrl := ping ++ [NUL]
  let pingUrlSize := ping.length % 256
  let pos ← appendData [] endOffset (pingUrl.take baseUrlSize)
  let sink ← appendData pos endOffset "/sink".toList
  let sinkUrl := sink ++ [NUL]
  let sinkUrlSize := sink.length % 256
  if certificate.length > PATH_MAX + 1 then
    none
  else
    let certificatePathSize := min (PATH_MAX % UINT_MOD) (certificate.length % UINT_MOD)
    some
      { hostHeaderSize := hostHeaderSize
        pingUrlSize := pingUrlSize
        sinkUrlSize := sinkUrlSize
        hostHeader := hostHeader ++ [NUL]
        pingUrl := pingUrl
        sinkUrl := sinkUrl
        certificatePathSize := certificatePathSize
        certificatePath := storeByte certificate certificatePathSize NUL }

/-- `Server::getHostHeader` (Server.h lines 103-105): `StaticString(hostHeader, hostHeaderSize)`. -/
def getHostHeader (self : Server) : List Char :=
  self.hostHeader.take self.hostHeaderSize

/-- `Server::getPingUrl` (Server.h lines 108-110). -/
def getPingUrl (self : Server) : List Char :=
  self.pingUrl.take self.pingUrlSize

/-- `Server::getSinkUrl` (Server.h lines 113-115). -/
def getSinkUrl (self : Server) : List Char :=
  self.sinkUrl.take self.sinkUrlSize

/-- `Server::getCertificatePath` (Server.h lines 118-120). -/
def getCertificatePath (self : Server) : List Char :=
  self.certificatePath.take self.certificatePathSize

end Server

end UstRouter.RemoteSender

end Passenger

namespace Passenger.UstRouter.RemoteSink.Examples

/-- A transaction with a body of 10 bytes. -/
def tx10 : Transaction := ⟨"key-a", "0123456789", 10⟩

/-- A second transaction with a body of 10 bytes. -/
def tx10b : Transaction := ⟨"key-b", "abcdefghij", 10⟩

/-- A third transaction with a body of 10 bytes. -/
def tx10c : Transaction := ⟨"key-c", "ABCDEFGHIJ", 10⟩

/-- A transaction with a body of 40 bytes. -/
def tx40 : Transaction := ⟨"key-d", "0123456789012345678901234567890123456789", 40⟩

/-- A transaction with a body of 1 byte. -/
def tx1 : Transaction := ⟨"key-e", "x", 1⟩

/-- A Batcher with a limit of 1000 bytes that holds one queued transaction of 10 bytes. -/
def holding10 : Batcher :=
  { Batcher.initial 1000 with queued := [tx10], bytesQueued := 10, nQueued := 1, peakSize := 10 }

/-- What the empty Batcher with a limit of 1000 bytes returns for an `add` of `[tx10]` at
`now = 2` seconds. -/
def accepted10 : Batcher.AddResult :=
  ⟨true,
    { Batcher.initial 1000 with
      bytesQueued := 10, nQueued := 1, peakSize := 10, lastQueueAddTime := 2000000 },
    [tx10]⟩

/-- A run under a limit of 50 bytes: two `add`s of 40 bytes, an `add` that is rejected, a
`consumeQueue`, a `clearProcessingStatistics` and two more `add`s of 40 bytes. -/
def budgetOps : List Batcher.Op :=
  [.add [tx40] 40 1 0, .add [tx40] 40 1 0, .add [tx10] 10 1 0, .consumeQueue 5,
    .clearProcessingStatistics 7, .add [tx40] 40 1 0, .add [tx40] 40 1 0]

/-- The Batcher at the end of `budgetOps`: it holds 80 bytes. -/
def budgetFinal : Batcher :=
  { Batcher.initial 50 with
    bytesQueued := 80, nQueued := 2, peakSize := 80, lastProcessingBeginTime := 5,
    lastProcessingEndTime := 7 }

/-- A Batcher that was told to quit while it holds one queued transaction of 10 bytes. -/
def quitting : Batcher :=
  { holding10 with quit := true }

/-- A ServerDatabase that knows `key-a` (group `group-1`) and `key-b` (group `group-2`), with
nothing pending. -/
def twoKeys : ServerDatabase :=
  { keys :=
      [("key-a", ⟨"group-1", 0, 0, 5 * 60 * 1000000, 60 * 1000000, true⟩),
        ("key-b", ⟨"group-2", 0, 0, 5 * 60 * 1000000, 60 * 1000000, true⟩)]
    queuedGroupIdToKeyLookups := []
    queuedGroupIdToKeyLookupCallbacks := [] }

/-- A run under the largest limit: an `add` of `2^64 - 1` bytes, a `consumeQueue`, and an `add`
of one more byte while the first bytes are in processing. -/
def peakOps : List Batcher.Op :=
  [.add [tx1] (2 ^ 64 - 1) 1 0, .consumeQueue 5, .add [tx1] 1 1 0]

/-- The Batcher at the end of `peakOps`: one byte queued, `2^64 - 1` bytes in processing. -/
def peakFinal : Batcher :=
  { Batcher.initial (2 ^ 64 - 1) with
    bytesQueued := 1, nQueued := 1, bytesProcessing := 2 ^ 64 - 1, nProcessing := 1,
    peakSize := 2 ^ 64 - 1, lastProcessingBeginTime := 5 }

/-- A Batcher with a limit of 10 bytes that holds 20 queued bytes in two transactions. -/
def overfull : Batcher :=
  { Batcher.initial 10 with queued := [tx10, tx10b], bytesQueued := 20, nQueued := 2, peakSize := 20 }

/-- A Batcher with the largest limit whose queued byte counter stands at the largest `size_t`. -/
def saturated : Batcher :=
  { Batcher.initial (2 ^ 64 - 1) with bytesQueued := 2 ^ 64 - 1, peakSize := 2 ^ 64 - 1 }

end Passenger.UstRouter.RemoteSink.Examples

namespace Passenger.UstRouter.RemoteSink

open Examples

/-! ## Batcher.add -/

/-- C1 (as stated, refuted): on the empty Batcher with a limit of 10 bytes, an `add` of 40 bytes is
accepted although `bytesQueued + bytesProcessing + totalBodySize = 40` exceeds the limit. -/
theorem add_accepts_bytes_over_limit :
    ∃ r, (Batcher.initial 10).add [tx40] 40 1 0 = some r ∧
      ¬ (r.accepted = false ↔
        (Batcher.initial 10).bytesQueued + (Batcher.initial 10).bytesProcessing + 40
          > (Batcher.initial 10).limit) := by
  refine ⟨_, rfl, ?_⟩
  decide

/-- C1 (amended): on a Batcher that is not shut down, `add` returns, and it returns false exactly
when the `size_t` sum `bytesQueued + bytesProcessing` held before the call exceeds `limit`;
`totalBodySize` takes no part in the test. -/
theorem add_rejects_iff_held_bytes_over_limit (s : Batcher) (transactions : TransactionList)
    (totalBodySize count : Nat) (now : ℚ) (hquit : s.quit = false) :
    ∃ r, s.add transactions totalBodySize count now = some r ∧
      (r.accepted = false ↔ s.limit < (s.bytesQueued + s.bytesProcessing) % SIZE_T_MOD) := by
  by_cases h : s.limit < (s.bytesQueued + s.bytesProcessing) % SIZE_T_MOD
  · exact ⟨⟨false, s, transactions⟩, by simp [Batcher.add, hquit, h], by simp [h]⟩
  · exact ⟨_, by simp only [Batcher.add, hquit, gt_iff_lt, h]; rfl, by simp [h]⟩

/-- Witness of `add_rejects_iff_held_bytes_over_limit` on the overfull Batcher (limit 10, 20
bytes queued). -/
theorem add_rejects_iff_held_bytes_over_limit_witness :
    overfull.quit = false ∧
    ∃ r, overfull.add [tx10c] 10 1 0 = some r ∧
      (r.accepted = false ↔
        overfull.limit < (overfull.bytesQueued + overfull.bytesProcessing) % SIZE_T_MOD) :=
  ⟨rfl, add_rejects_iff_held_bytes_over_limit overfull [tx10c] 10 1 0 rfl⟩

/-- C2: whenever `add` returns false, the Batcher afterwards is the Batcher before the call (its
queue, `bytesQueued`, `nQueued`, `bytesProcessing`, `nProcessing`, `peakSize`,
`lastQueueAddTime` and every other member), and the caller's list is untouched. -/
theorem add_rejection_leaves_state_unchanged (s : Batcher) (transactions : TransactionList)
    (totalBodySize count : Nat) (now : ℚ) (r : Batcher.AddResult)
    (h : s.add transactions totalBodySize count now = some r) (hr : r.accepted = false) :
    r.batcher = s ∧ r.transactions = transactions := by
  unfold Batcher.add at h
  split at h
  · exact absurd h (by simp)
  · split at h
    · cases h
      exact ⟨rfl, rfl⟩
    · cases h
      exact absurd hr (by simp)

/-- Witness of `add_rejection_leaves_state_unchanged`: the overfull Batcher rejects an `add`. -/
theorem add_rejection_leaves_state_unchanged_witness :
    overfull.add [tx10c] 10 1 0 = some ⟨false, overfull, [tx10c]⟩ ∧
    (⟨false, overfull, [tx10c]⟩ : Batcher.AddResult).accepted = false ∧
    (⟨false, overfull, [tx10c]⟩ : Batcher.AddResult).batcher = overfull ∧
    (⟨false, overfull, [tx10c]⟩ : Batcher.AddResult).transactions = [tx10c] :=
  ⟨by decide, rfl,
    add_rejection_leaves_state_unchanged overfull [tx10c] 10 1 0 ⟨false, overfull, [tx10c]⟩
      (by decide) rfl⟩

/-- C3 (the code at the failing input): the Batcher right after construction accepts an `add` of
`[tx10]` and counts its 10 bytes, but its queue stays empty instead of holding `tx10`:
`STAILQ_CONCAT(&transactions, &queued)` appends the queue to the caller's list, not the offered
transactions to the queue. A second accepted `add` of `[tx10b]` leaves the queue empty again, and
the next `consumeQueue` hands the worker an empty list instead of `[tx10, tx10b]`, while the
counters stand at 20 bytes in 2 transactions. -/
theorem add_leaves_queue_empty :
    ∃ r, (Batcher.initial 1000).add [tx10] 10 1 0 = some r ∧
      r.accepted = true ∧
      r.batcher.bytesQueued = 10 ∧ r.batcher.nQueued = 1 ∧
      r.batcher.queued = [] ∧
      r.batcher.queued ≠ (Batcher.initial 1000).queued ++ [tx10] ∧
      r.transactions = [tx10] ∧
      ∃ r2, r.batcher.add [tx10b] 10 1 0 = some r2 ∧
        r2.accepted = true ∧
        r2.batcher.bytesQueued = 20 ∧ r2.batcher.nQueued = 2 ∧
        r2.batcher.queued = [] ∧
        r2.transactions = [tx10b] ∧
        ∃ c, r2.batcher.consumeQueue 0 = some c ∧ c.1 = [] ∧ c.1 ≠ [tx10, tx10b] := by
  refine ⟨_, rfl, rfl, by decide, by decide, rfl, by decide, rfl,
    _, rfl, rfl, by decide, by decide, rfl, rfl, _, rfl, rfl, by decide⟩

/-- An integer is its own nearest integer. -/
theorem roundNearestEven_intCast (k : ℤ) : roundNearestEven (k : ℚ) = k := by
  unfold roundNearestEven
  rw [Int.floor_intCast, sub_self, if_pos (by norm_num)]

/-- A natural number below `2^53` is a double: rounding leaves it as it is. -/
theorem roundToDouble_natCast (m : ℕ) (hm : m < 2 ^ 53) : roundToDouble (m : ℚ) = m := by
  unfold roundToDouble
  rcases Nat.eq_zero_or_pos m with h0 | hpos
  · subst h0
    simp
  · have hne : (m : ℚ) ≠ 0 := by
      have hlt : (0 : ℚ) < (m : ℚ) := by exact_mod_cast hpos
      exact ne_of_gt hlt
    rw [if_neg hne, abs_of_nonneg (Nat.cast_nonneg m), Int.log_natCast]
    have hk : Nat.log 2 m < 53 := Nat.log_lt_of_lt_pow (by omega) hm
    obtain ⟨j, hj⟩ : ∃ j : ℕ, ((Nat.log 2 m : ℕ) : ℤ) - 52 = -(j : ℤ) :=
      ⟨52 - Nat.log 2 m, by omega⟩
    rw [hj, zpow_neg, zpow_natCast]
    have hquot : (m : ℚ) / ((2 : ℚ) ^ j)⁻¹ = (((m * 2 ^ j : ℕ) : ℤ) : ℚ) := by
      rw [div_inv_eq_mul]
      push_cast
      ring
    rw [hquot, roundNearestEven_intCast]
    push_cast
    field_simp

/-- The value of `usecOfTstamp` from the integer part of the rounded product. -/
theorem usecOfTstamp_of_floor (now : ℚ) (k : ℤ) (n : ℕ)
    (h : ⌊roundToDouble (now * 1000000)⌋ = k) (hk : Int.toNat k % ULLONG_MOD = n) :
    Batcher.usecOfTstamp now = n := by
  unfold Batcher.usecOfTstamp
  rw [h, hk]

/-- A whole number of seconds `n` with `n * 1000000` below `2^53` is `n * 1000000`
microseconds: the product is a double and nothing is rounded. -/
theorem usecOfTstamp_whole_seconds (n : Nat) (now : ℚ) (hn : now = (n : ℚ))
    (hsmall : n * 1000000 < 2 ^ 53) :
    Batcher.usecOfTstamp now = n * 1000000 := by
  unfold Batcher.usecOfTstamp
  have hprod : now * 1000000 = ((n * 1000000 : Nat) : ℚ) := by
    rw [hn]
    push_cast
    ring
  rw [hprod, roundToDouble_natCast _ hsmall, Int.floor_natCast, Int.toNat_natCast]
  exact Nat.mod_eq_of_lt (by unfold ULLONG_MOD; omega)

/-- The double nearest to 1478684665.717316 is `6202053008156801 / 2^22`; its exact product with
1000000 lies between `2^50` and `2^51`. -/
theorem log_of_sample_product :
    Int.log 2 |(6202053008156801 / 4194304 : ℚ) * 1000000| = 50 := by
  have hpos : (0 : ℚ) < 6202053008156801 / 4194304 * 1000000 := by norm_num
  rw [abs_of_pos hpos]
  apply le_antisymm
  · have h := (Int.lt_zpow_iff_log_lt (by norm_num : 1 < 2) hpos (x := 51)).1 (by norm_num)
    omega
  · exact (Int.zpow_le_iff_le_log (by norm_num : 1 < 2) hpos (x := 50)).1 (by norm_num)

/-- The significand of that product is rounded up. -/
theorem roundNearestEven_of_sample_product :
    roundNearestEven
        ((6202053008156801 / 4194304 : ℚ) * 1000000 / (2 : ℚ) ^ ((50 : ℤ) - 52))
      = 5914738662869264 := by
  have hfloor : ⌊(6202053008156801 / 4194304 : ℚ) * 1000000 / (2 : ℚ) ^ ((50 : ℤ) - 52)⌋
      = 5914738662869263 := by
    rw [Int.floor_eq_iff]
    norm_num
  unfold roundNearestEven
  rw [hfloor]
  norm_num

/-- The product of doubles is rounded before its fraction is dropped: at the double nearest to
1478684665.717316 it is 1478684665717316 microseconds, where the integer part of the exact
product is 1478684665717315. -/
theorem usecOfTstamp_rounds_the_product :
    Batcher.usecOfTstamp (6202053008156801 / 4194304) = 1478684665717316 ∧
    ⌊(6202053008156801 / 4194304 : ℚ) * 1000000⌋ = 1478684665717315 := by
  have hne : (6202053008156801 / 4194304 : ℚ) * 1000000 ≠ 0 := by norm_num
  have hround : roundToDouble ((6202053008156801 / 4194304 : ℚ) * 1000000)
      = ((5914738662869264 : ℤ) : ℚ) * (2 : ℚ) ^ ((50 : ℤ) - 52) := by
    unfold roundToDouble
    rw [if_neg hne, log_of_sample_product, roundNearestEven_of_sample_product]
  have hfloor : ⌊roundToDouble ((6202053008156801 / 4194304 : ℚ) * 1000000)⌋
      = 1478684665717316 := by
    rw [hround, Int.floor_eq_iff]
    norm_num
  have hexact : ⌊(6202053008156801 / 4194304 : ℚ) * 1000000⌋ = 1478684665717315 := by
    rw [Int.floor_eq_iff]
    norm_num
  exact ⟨usecOfTstamp_of_floor _ _ _ hfloor rfl, hexact⟩

/-- C4 (as stated, refuted): on a Batcher whose `bytesQueued` stands at `2^64 - 1` under the
largest limit, an accepted `add` of one byte leaves `bytesQueued` at 0, not at one more. -/
theorem add_wraps_bytesQueued :
    ∃ r, saturated.add [tx1] 1 1 0 = some r ∧
      r.accepted = true ∧
      r.batcher.bytesQueued = 0 ∧
      r.batcher.bytesQueued ≠ saturated.bytesQueued + 1 := by
  refine ⟨_, rfl, rfl, by decide, by decide⟩

/-- C4 (amended): whenever `add` accepts, `bytesQueued` grows by `totalBodySize` modulo `2^64`,
`nQueued` grows by `count` modulo `2^32`, `peakSize` becomes the maximum of its old value and the
new `size_t` sum `bytesQueued + bytesProcessing`, and `bytesProcessing` and `nProcessing` keep
their values; when the sums stay below the width of their type the growth is exact.
`lastQueueAddTime` is set from `now` alone, scaled from seconds to microseconds: it is the
product of doubles `now * 1000000` without its fraction, and for a whole number of seconds `n`
with `n * 1000000` below `2^53`, where nothing is rounded, it is `n * 1000000`. -/
theorem add_acceptance_updates_counters (s : Batcher) (transactions : TransactionList)
    (totalBodySize count : Nat) (now : ℚ) (r : Batcher.AddResult)
    (h : s.add transactions totalBodySize count now = some r) (hr : r.accepted = true) :
    r.batcher.bytesQueued = (s.bytesQueued + totalBodySize) % SIZE_T_MOD ∧
    r.batcher.nQueued = (s.nQueued + count) % UINT_MOD ∧
    r.batcher.peakSize
      = max s.peakSize ((r.batcher.bytesQueued + r.batcher.bytesProcessing) % SIZE_T_MOD) ∧
    r.batcher.lastQueueAddTime = Batcher.usecOfTstamp now ∧
    r.batcher.bytesProcessing = s.bytesProcessing ∧
    r.batcher.nProcessing = s.nProcessing ∧
    (s.bytesQueued + totalBodySize + s.bytesProcessing < SIZE_T_MOD →
      r.batcher.bytesQueued = s.bytesQueued + totalBodySize ∧
      r.batcher.peakSize
        = max s.peakSize (s.bytesQueued + totalBodySize + s.bytesProcessing)) ∧
    (s.nQueued + count < UINT_MOD → r.batcher.nQueued = s.nQueued + count) ∧
    (∀ n : Nat, now = (n : ℚ) → n * 1000000 < 2 ^ 53 →
      r.batcher.lastQueueAddTime = n * 1000000) := by
  unfold Batcher.add at h
  split at h
  · exact absurd h (by simp)
  · split at h
    · cases h
      exact absurd hr (by simp)
    · cases h
      refine ⟨rfl, rfl, rfl, rfl, rfl, rfl, ?_, ?_, ?_⟩
      · intro hlt
        have h1 : (s.bytesQueued + totalBodySize) % SIZE_T_MOD = s.bytesQueued + totalBodySize :=
          Nat.mod_eq_of_lt (by omega)
        simp only [h1, Nat.mod_eq_of_lt hlt, and_self]
      · intro hlt
        exact Nat.mod_eq_of_lt hlt
      · intro n hn hsmall
        exact usecOfTstamp_whole_seconds n now hn hsmall

/-- Two seconds are 2000000 microseconds. -/
theorem usecOfTstamp_two : Batcher.usecOfTstamp 2 = 2000000 :=
  usecOfTstamp_whole_seconds 2 2 (by norm_num) (by norm_num)

/-- The empty Batcher with a limit of 1000 bytes accepts 10 bytes at `now = 2` seconds. -/
theorem initial_add_accepted10 :
    (Batcher.initial 1000).add [tx10] 10 1 2 = some accepted10 := by
  simp only [Batcher.add, Batcher.initial, accepted10, STAILQ_CONCAT, usecOfTstamp_two]
  decide

/-- Witness of `add_acceptance_updates_counters`: the empty Batcher with a limit of 1000 bytes
accepts 10 bytes at `now = 2` seconds. -/
theorem add_acceptance_updates_counters_witness :
    (Batcher.initial 1000).add [tx10] 10 1 2 = some accepted10 ∧
    accepted10.accepted = true ∧
    accepted10.batcher.bytesQueued = ((Batcher.initial 1000).bytesQueued + 10) % SIZE_T_MOD ∧
    accepted10.batcher.nQueued = ((Batcher.initial 1000).nQueued + 1) % UINT_MOD :=
  ⟨initial_add_accepted10, rfl,
    (add_acceptance_updates_counters (Batcher.initial 1000) [tx10] 10 1 2 accepted10
      initial_add_accepted10 rfl).1,
    (add_acceptance_updates_counters (Batcher.initial 1000) [tx10] 10 1 2 accepted10
      initial_add_accepted10 rfl).2.1⟩

/-! ## The byte budget -/

/-- Zero seconds are zero microseconds. -/
theorem usecOfTstamp_zero : Batcher.usecOfTstamp 0 = 0 :=
  usecOfTstamp_whole_seconds 0 0 (by norm_num) (by norm_num)

/-- Every operation of `budgetOps` offers at most 40 bytes. -/
theorem budgetOps_offer_at_most_40 : ∀ op ∈ budgetOps, op.offeredBytes ≤ 40 := by
  intro op hop
  simp only [budgetOps, List.mem_cons, List.mem_singleton, List.not_mem_nil, or_false] at hop
  rcases hop with h | h | h | h | h | h | h <;> subst h <;> simp [Batcher.Op.offeredBytes]

/-- The run `budgetOps` from the empty Batcher with a limit of 50 bytes ends in `budgetFinal`. -/
theorem run_budgetOps : (Batcher.initial 50).run budgetOps = some budgetFinal := by
  simp only [budgetOps, Batcher.run, Batcher.applyOp, Batcher.add, Batcher.consumeQueue,
    Batcher.clearProcessingStatistics, Batcher.initial, budgetFinal, STAILQ_CONCAT, STAILQ_SWAP,
    usecOfTstamp_zero]
  decide

/-- One operation offering at most `m` bytes keeps `bytesQueued + bytesProcessing` within
`limit + m`, and keeps `limit`. -/
theorem applyOp_keeps_overshoot (m : Nat) (s next : Batcher) (op : Batcher.Op)
    (hlm : s.limit + m < SIZE_T_MOD) (hop : op.offeredBytes ≤ m)
    (hinv : s.bytesQueued + s.bytesProcessing ≤ s.limit + m)
    (h : s.applyOp op = some next) :
    next.limit = s.limit ∧ next.bytesQueued + next.bytesProcessing ≤ next.limit + m := by
  cases op with
  | add transactions totalBodySize count now =>
    simp only [Batcher.Op.offeredBytes] at hop
    simp only [Batcher.applyOp, Batcher.add] at h
    have hmod : (s.bytesQueued + s.bytesProcessing) % SIZE_T_MOD
        = s.bytesQueued + s.bytesProcessing := Nat.mod_eq_of_lt (by omega)
    split at h
    · exact absurd h (by simp)
    · split at h
      · simp only [Option.map_some', Option.some.injEq] at h
        subst h
        exact ⟨rfl, hinv⟩
      · rename_i hle
        rw [hmod] at hle
        simp only [Option.map_some', Option.some.injEq] at h
        subst h
        refine ⟨rfl, ?_⟩
        show (s.bytesQueued + totalBodySize) % SIZE_T_MOD + s.bytesProcessing ≤ s.limit + m
        have := Nat.mod_le (s.bytesQueued + totalBodySize) SIZE_T_MOD
        omega
  | consumeQueue usec =>
    simp only [Batcher.applyOp, Batcher.consumeQueue] at h
    split at h
    · exact absurd h (by simp)
    · split at h
      · exact absurd h (by simp)
      · rename_i hbp _
        simp only [Option.map_some', Option.some.injEq] at h
        subst h
        refine ⟨rfl, ?_⟩
        show 0 + s.bytesQueued ≤ s.limit + m
        omega
  | clearProcessingStatistics usec =>
    simp only [Batcher.applyOp, Option.some.injEq] at h
    subst h
    refine ⟨rfl, ?_⟩
    show s.bytesQueued + 0 ≤ s.limit + m
    omega

/-- A sequence of operations, each offering at most `m` bytes, keeps
`bytesQueued + bytesProcessing` within `limit + m`. -/
theorem run_keeps_overshoot (m : Nat) (ops : List Batcher.Op) :
    ∀ (s final : Batcher), s.limit + m < SIZE_T_MOD →
      (∀ op ∈ ops, op.offeredBytes ≤ m) →
      s.bytesQueued + s.bytesProcessing ≤ s.limit + m →
      s.run ops = some final →
      final.limit = s.limit ∧ final.bytesQueued + final.bytesProcessing ≤ final.limit + m := by
  induction ops with
  | nil =>
    intro s final _ _ hinv h
    simp only [Batcher.run, Option.some.injEq] at h
    subst h
    exact ⟨rfl, hinv⟩
  | cons op ops ih =>
    intro s final hlm hops hinv h
    simp only [Batcher.run] at h
    cases hstep : s.applyOp op with
    | none => simp [hstep] at h
    | some next =>
      rw [hstep] at h
      simp only [Option.some_bind] at h
      obtain ⟨hl, hi⟩ := applyOp_keeps_overshoot m s next op hlm
        (hops op (List.mem_cons_self _ _)) hinv hstep
      obtain ⟨hl2, hi2⟩ := ih next final (by rw [hl]; exact hlm)
        (fun o ho => hops o (List.mem_cons_of_mem _ ho)) hi h
      exact ⟨hl2.trans hl, hi2⟩

/-- C5 (as stated, refuted): one `add` of 40 bytes on the empty Batcher with a limit of 10 bytes
reaches a state that holds 40 bytes, over the limit. -/
theorem byte_budget_exceeded_after_one_add :
    ∃ s, (Batcher.initial 10).run [Batcher.Op.add [tx40] 40 1 0] = some s ∧
      ¬ (s.bytesQueued + s.bytesProcessing ≤ s.limit) := by
  refine ⟨_, rfl, ?_⟩
  decide

/-- C5 (amended): the byte budget holds up to the bytes of one `add`. In every state reached from
the empty initial state by `add`, `consumeQueue` and `clearProcessingStatistics` steps in which
each `add` offers at most `m` bytes (with `limit + m` below `2^64`),
`bytesQueued + bytesProcessing <= limit + m`. -/
theorem byte_budget_overshoot_bounded (limit m : Nat) (ops : List Batcher.Op) (s : Batcher)
    (hlm : limit + m < SIZE_T_MOD) (hops : ∀ op ∈ ops, op.offeredBytes ≤ m)
    (h : (Batcher.initial limit).run ops = some s) :
    s.limit = limit ∧ s.bytesQueued + s.bytesProcessing ≤ limit + m := by
  have hrun := run_keeps_overshoot m ops (Batcher.initial limit) s hlm hops
    (by show 0 + 0 ≤ limit + m; omega) h
  obtain ⟨hl, hi⟩ := hrun
  have hl2 : s.limit = limit := hl
  rw [hl2] at hi
  exact ⟨hl2, hi⟩

/-- Witness of `byte_budget_overshoot_bounded`: under a limit of 50 bytes the run `budgetOps`,
whose `add`s offer at most 40 bytes, ends with 80 bytes in the Batcher, within `50 + 40`. -/
theorem byte_budget_overshoot_bounded_witness :
    50 + 40 < SIZE_T_MOD ∧
    (∀ op ∈ budgetOps, op.offeredBytes ≤ 40) ∧
    (Batcher.initial 50).run budgetOps = some budgetFinal ∧
    budgetFinal.limit = 50 ∧
    budgetFinal.bytesQueued + budgetFinal.bytesProcessing ≤ 50 + 40 :=
  ⟨by decide, budgetOps_offer_at_most_40, run_budgetOps,
    byte_budget_overshoot_bounded 50 40 budgetOps budgetFinal (by decide)
      budgetOps_offer_at_most_40 run_budgetOps⟩

/-! ## The worker loop -/

/-- With both processing counters at zero, `consumeQueue` returns: it hands over the queue and
moves the queued counters into the processing counters. -/
theorem consumeQueue_of_idle (s : Batcher) (usec : Nat)
    (hb : s.bytesProcessing = 0) (hn : s.nProcessing = 0) :
    s.consumeQueue usec = some (s.queued,
      { s with
        bytesProcessing := s.bytesQueued
        nProcessing := s.nQueued
        queued := []
        bytesQueued := 0
        nQueued := 0
        lastProcessingBeginTime := usec }) := by
  simp [Batcher.consumeQueue, hb, hn, STAILQ_SWAP]

/-- C6: in the step relation of `realThreadMain` the worker returns only from a state in which
`quit` is set and the queue is empty (and it does return from there); with a non-empty queue it
never returns, and from the head of the loop or a wake-up it consumes the whole queue, whether
`quit` is set or not, and then batches it and clears the processing statistics. -/
theorem worker_returns_only_after_draining (striveBatchSize usec : Nat) (s : Batcher)
    (pc : Batcher.WorkerPc) :
    (∀ next, s.realThreadMainStep striveBatchSize usec pc = some (next, .returned) →
      s.quit = true ∧ s.queued = [] ∧ next = s) ∧
    (s.queued ≠ [] →
      ∀ next, s.realThreadMainStep striveBatchSize usec pc ≠ some (next, .returned)) ∧
    (pc = .loop ∨ pc = .waiting → s.queued ≠ [] → s.bytesProcessing = 0 → s.nProcessing = 0 →
      ∃ next, s.consumeQueue usec = some (s.queued, next) ∧
        s.realThreadMainStep striveBatchSize usec pc = some (next, .batching s.queued)) ∧
    (∀ transactions, pc = .batching transactions →
      ∃ batches, Batcher.performBatching striveBatchSize transactions = some ([], batches) ∧
        s.realThreadMainStep striveBatchSize usec pc
          = some (s.clearProcessingStatistics usec, .loop)) ∧
    (pc = .loop ∨ pc = .waiting → s.quit = true → s.queued = [] →
      s.realThreadMainStep striveBatchSize usec pc = some (s, .returned)) := by
  have hret : ∀ next, s.realThreadMainStep striveBatchSize usec pc = some (next, .returned) →
      s.quit = true ∧ s.queued = [] ∧ next = s := by
    intro next h
    have hloop : ∀ r : Option (Batcher × Batcher.WorkerPc),
        r = (if (!s.quit && STAILQ_EMPTY s.queued) = true then some (s, .waiting)
          else if STAILQ_EMPTY s.queued = true then
            if s.quit = true then some (s, .returned) else some (s, .loop)
          else
            match s.consumeQueue usec with
            | none => none
            | some (transactions, next) => some (next, .batching transactions)) →
        r = some (next, .returned) → s.quit = true ∧ s.queued = [] ∧ next = s := by
      intro r hr hres
      rw [hres] at hr
      split at hr
      · simp at hr
      · split at hr
        · rename_i hempty
          split at hr
          · rename_i hq
            simp only [Option.some.injEq, Prod.mk.injEq, and_true] at hr
            exact ⟨hq, by simpa [STAILQ_EMPTY] using hempty, hr⟩
          · simp at hr
        · split at hr <;> simp at hr
    cases pc with
    | loop => exact hloop _ rfl h
    | waiting => exact hloop _ rfl h
    | batching transactions =>
      simp only [Batcher.realThreadMainStep] at h
      split at h <;> simp at h
    | returned => simp [Batcher.realThreadMainStep] at h
  have hconsume : pc = .loop ∨ pc = .waiting → s.queued ≠ [] → s.bytesProcessing = 0 →
      s.nProcessing = 0 →
      ∃ next, s.consumeQueue usec = some (s.queued, next) ∧
        s.realThreadMainStep striveBatchSize usec pc = some (next, .batching s.queued) := by
    intro hpc hne hb hn
    have hempty : STAILQ_EMPTY s.queued = false := by
      cases hq : s.queued with
      | nil => exact absurd hq hne
      | cons t rest => rfl
    have hnext := consumeQueue_of_idle s usec hb hn
    refine ⟨_, hnext, ?_⟩
    rcases hpc with hpc | hpc <;> subst hpc <;>
      simp [Batcher.realThreadMainStep, hempty, hnext]
  refine ⟨hret, ?_, hconsume, ?_, ?_⟩
  · intro hne next h
    exact hne (hret next h).2.1
  · intro transactions hpc
    subst hpc
    exact ⟨_, rfl, rfl⟩
  · intro hpc hq hempty
    rcases hpc with hpc | hpc <;> subst hpc <;>
      simp [Batcher.realThreadMainStep, hq, hempty, STAILQ_EMPTY]

/-- Witness of `worker_returns_only_after_draining`: a worker that wakes up on a Batcher with
`quit` set and one queued transaction consumes the queue instead of returning. -/
theorem worker_returns_only_after_draining_witness :
    quitting.quit = true ∧ quitting.queued ≠ [] ∧
    quitting.bytesProcessing = 0 ∧ quitting.nProcessing = 0 ∧
    ∃ next, quitting.consumeQueue 3 = some (quitting.queued, next) ∧
      quitting.realThreadMainStep 25 3 .waiting = some (next, .batching quitting.queued) :=
  ⟨rfl, by decide, rfl, rfl,
    (worker_returns_only_after_draining 25 3 quitting .waiting).2.2.1 (Or.inr rfl) (by decide)
      rfl rfl⟩

/-! ## consumeQueue and clearProcessingStatistics -/

/-- The batches cut from `rest`, with `current` under construction, hold `current` followed by
`rest`. -/
theorem closeBatches_contents (threshold : Nat) (rest : TransactionList) :
    ∀ current : TransactionList,
      batchContents (BatchingAlgorithm.closeBatches threshold current rest) = current ++ rest := by
  induction rest with
  | nil =>
    intro current
    cases current with
    | nil => rfl
    | cons t ts => simp [BatchingAlgorithm.closeBatches, batchContents]
  | cons t rest ih =>
    intro current
    simp only [BatchingAlgorithm.closeBatches]
    split
    · have h := ih [t]
      simp only [batchContents] at h ⊢
      simp [h]
    · rw [ih (current ++ [t])]
      simp

/-- One batch per oversized transaction holds the oversized transactions in order. -/
theorem oversized_batches_contents (oversized : TransactionList) :
    batchContents (oversized.map (fun t => (⟨[t]⟩ : Batch))) = oversized := by
  induction oversized with
  | nil => rfl
  | cons t rest ih =>
    show [t] ++ batchContents (rest.map (fun t => (⟨[t]⟩ : Batch))) = t :: rest
    rw [ih]
    rfl

/-- The contents of two batch lists in a row. -/
theorem batchContents_append (xs ys : List Batch) :
    batchContents (xs ++ ys) = batchContents xs ++ batchContents ys := by
  simp [batchContents]

/-- The batch list that the batching pass builds: the cut of the undersized transactions, then
one batch per oversized transaction. -/
theorem performBatching_eq (striveBatchSize : Nat) (transactions : TransactionList) :
    Batcher.performBatching striveBatchSize transactions
      = some ([], BatchingAlgorithm.closeBatches striveBatchSize []
          (transactions.filter (fun t => decide (t.bodySize < striveBatchSize)))
        ++ (transactions.filter (fun t => !decide (t.bodySize < striveBatchSize))).map
          (fun t => (⟨[t]⟩ : Batch))) := by
  simp [Batcher.performBatching, BatchingAlgorithm.organizeTransactionsBySize,
    BatchingAlgorithm.organizeUndersizedTransactionsIntoBatches,
    BatchingAlgorithm.createBatchObjectsForUndersizedTransactions,
    BatchingAlgorithm.createBatchObjectsForOversizedTransactions, STAILQ_EMPTY,
    List.partition_eq_filter_filter]
  rfl

/-- A list in which no element failing `p` comes before an element passing `p` is its elements
passing `p` followed by its elements failing `p`. -/
theorem filter_append_filter_not_eq_self {α : Type} (p : α → Bool) (l : List α)
    (h : l.Pairwise (fun a b => ¬ (p a = false ∧ p b = true))) :
    l.filter p ++ l.filter (fun a => !p a) = l := by
  induction l with
  | nil => rfl
  | cons a rest ih =>
    rw [List.pairwise_cons] at h
    obtain ⟨ha, hrest⟩ := h
    cases hp : p a with
    | true =>
      simp only [List.filter_cons, hp, Bool.not_true, if_true, Bool.false_eq_true, if_false,
        List.cons_append, ih hrest]
    | false =>
      have hnone : rest.filter p = [] := by
        rw [List.filter_eq_nil_iff]
        intro b hb hpb
        exact ha b hb ⟨hp, hpb⟩
      have hall : rest.filter (fun a => !p a) = rest := by
        rw [List.filter_eq_self]
        intro b hb
        cases hpb : p b with
        | true => exact absurd ⟨hp, hpb⟩ (ha b hb)
        | false => rfl
      simp [List.filter_cons, hp, hnone, hall]

/-- C8 (as stated, refuted): with strive size 25 the batching pass of `[tx40, tx10]` gives the
batches `[tx10]` and `[tx40]`, whose contents in order are not the input list. -/
theorem performBatching_reorders_across_partitions :
    Batcher.performBatching 25 [tx40, tx10] = some ([], [⟨[tx10]⟩, ⟨[tx40]⟩]) ∧
    batchContents [⟨[tx10]⟩, ⟨[tx40]⟩] ≠ [tx40, tx10] := by
  decide

/-- C8 (amended): for every transaction list and strive size the batching pass returns and leaves
the input list empty; the transactions of its batches, in order, are the undersized transactions
of the input in input order followed by the oversized ones in input order. That is a
rearrangement of the input with nothing lost or duplicated, and it is the input list itself
when no oversized transaction comes before an undersized one. -/
theorem performBatching_conserves_transactions (striveBatchSize : Nat)
    (transactions : TransactionList) :
    ∃ batches, Batcher.performBatching striveBatchSize transactions = some ([], batches) ∧
      batchContents batches
        = transactions.filter (fun t => decide (t.bodySize < striveBatchSize))
          ++ transactions.filter (fun t => !decide (t.bodySize < striveBatchSize)) ∧
      (batchContents batches).Perm transactions ∧
      (transactions.Pairwise
          (fun a b => ¬ (striveBatchSize ≤ a.bodySize ∧ b.bodySize < striveBatchSize)) →
        batchContents batches = transactions) := by
  refine ⟨_, performBatching_eq striveBatchSize transactions, ?_, ?_, ?_⟩
  · rw [batchContents_append, closeBatches_contents, oversized_batches_contents]
    rfl
  · rw [batchContents_append, closeBatches_contents, oversized_batches_contents]
    exact List.filter_append_perm _ transactions
  · intro hpair
    rw [batchContents_append, closeBatches_contents, oversized_batches_contents]
    refine filter_append_filter_not_eq_self _ transactions (hpair.imp ?_)
    intro a b hab hcontra
    apply hab
    simpa using hcontra

/-- Witness of `performBatching_conserves_transactions`: in `[tx10, tx10b, tx40]` no oversized
transaction comes before an undersized one, and the batches hold the input list. -/
theorem performBatching_conserves_transactions_witness :
    [tx10, tx10b, tx40].Pairwise (fun a b => ¬ (25 ≤ a.bodySize ∧ b.bodySize < 25)) ∧
    ∃ batches, Batcher.performBatching 25 [tx10, tx10b, tx40] = some ([], batches) ∧
      batchContents batches = [tx10, tx10b, tx40] :=
  ⟨by decide,
    (performBatching_conserves_transactions 25 [tx10, tx10b, tx40]).imp
      (fun _ h => ⟨h.1, h.2.2.2 (by decide)⟩)⟩

/-- The combined size of a list with one more transaction at its end. -/
theorem totalBodySize_append_singleton (current : TransactionList) (t : Transaction) :
    totalBodySize (current ++ [t]) = totalBodySize current + t.bodySize := by
  simp [totalBodySize]

/-- Cutting undersized transactions never builds a batch over the threshold, when the batch
under construction is within it. -/
theorem closeBatches_sizes (threshold : Nat) (rest : TransactionList) :
    ∀ current : TransactionList, totalBodySize current ≤ threshold →
      (∀ t ∈ rest, t.bodySize < threshold) →
      ∀ b ∈ BatchingAlgorithm.closeBatches threshold current rest, b.size ≤ threshold := by
  induction rest with
  | nil =>
    intro current hcur _ b hb
    simp only [BatchingAlgorithm.closeBatches] at hb
    split at hb
    · simp at hb
    · simp only [List.mem_singleton] at hb
      subst hb
      exact hcur
  | cons t rest ih =>
    intro current hcur hrest b hb
    have ht : t.bodySize < threshold := hrest t (List.mem_cons_self _ _)
    have hrest2 : ∀ u ∈ rest, u.bodySize < threshold :=
      fun u hu => hrest u (List.mem_cons_of_mem _ hu)
    simp only [BatchingAlgorithm.closeBatches] at hb
    split at hb
    · rcases List.mem_cons.mp hb with h | h
      · subst h
        exact hcur
      · refine ih [t] ?_ hrest2 b h
        simp only [totalBodySize, List.map_cons, List.map_nil, List.sum_cons, List.sum_nil]
        omega
    · rename_i hcond
      refine ih (current ++ [t]) ?_ hrest2 b hb
      rw [totalBodySize_append_singleton]
      cases current with
      | nil =>
        simp only [totalBodySize, List.map_nil, List.sum_nil]
        omega
      | cons c cs =>
        simp only [List.isEmpty_cons, Bool.not_false, Bool.true_and, decide_eq_true_eq,
          not_lt] at hcond
        omega

/-- C9: every batch of the batching pass has a total size of at most the strive size, or is one
single transaction of at least the strive size. Sizes `[10,10,10]` with strive size 25 give the
batches `[10,10]` and `[10]`, none over 25, holding all three transactions; one transaction of
40 bytes with strive size 25 gives exactly one batch, of size 40. -/
theorem performBatching_batch_sizes (striveBatchSize : Nat) (transactions : TransactionList) :
    (∃ batches, Batcher.performBatching striveBatchSize transactions = some ([], batches) ∧
      ∀ b ∈ batches, b.size ≤ striveBatchSize ∨
        ∃ t, b.transactions = [t] ∧ striveBatchSize ≤ t.bodySize) ∧
    (Batcher.performBatching 25 [tx10, tx10b, tx10c]
        = some ([], [⟨[tx10, tx10b]⟩, ⟨[tx10c]⟩]) ∧
      (∀ b ∈ [(⟨[tx10, tx10b]⟩ : Batch), ⟨[tx10c]⟩], b.size ≤ 25) ∧
      batchContents [⟨[tx10, tx10b]⟩, ⟨[tx10c]⟩] = [tx10, tx10b, tx10c]) ∧
    (Batcher.performBatching 25 [tx40] = some ([], [⟨[tx40]⟩]) ∧
      (⟨[tx40]⟩ : Batch).size = 40) := by
  refine ⟨⟨_, performBatching_eq striveBatchSize transactions, ?_⟩, by decide, by decide⟩
  intro b hb
  rcases List.mem_append.mp hb with h | h
  · left
    refine closeBatches_sizes striveBatchSize _ [] (Nat.zero_le _) ?_ b h
    intro t ht
    simpa using (List.mem_filter.mp ht).2
  · right
    obtain ⟨t, ht, hbt⟩ := List.mem_map.mp h
    refine ⟨t, by rw [← hbt], ?_⟩
    have := (List.mem_filter.mp ht).2
    simpa using this

/-- Witness of `performBatching_batch_sizes` at strive size 25 on `[tx10, tx40, tx10b, tx10c]`:
the batches are `[tx10, tx10b]`, `[tx10c]` and `[tx40]`. -/
theorem performBatching_batch_sizes_witness :
    Batcher.performBatching 25 [tx10, tx40, tx10b, tx10c]
      = some ([], [⟨[tx10, tx10b]⟩, ⟨[tx10c]⟩, ⟨[tx40]⟩]) ∧
    ∃ batches, Batcher.performBatching 25 [tx10, tx40, tx10b, tx10c] = some ([], batches) ∧
      ∀ b ∈ batches, b.size ≤ 25 ∨ ∃ t, b.transactions = [t] ∧ 25 ≤ t.bodySize :=
  ⟨by decide, (performBatching_batch_sizes 25 [tx10, tx40, tx10b, tx10c]).1⟩

/-! ## ServerDatabase.getGroupIdsForKeys -/

/-- The lookup loop, started with `groupIds`, ends with as many more group ids as there are keys
exactly when every key is known, and then the new group ids are those of the keys, in order. -/
theorem lookupGroupIds_spec (table : StringKeyTable ServerDatabase.KeyInfo) (keys : List String) :
    ∀ groupIds : List String,
      (ServerDatabase.lookupGroupIds table keys groupIds).length ≤ groupIds.length + keys.length ∧
      ((ServerDatabase.lookupGroupIds table keys groupIds).length
          = groupIds.length + keys.length ↔ ∀ key ∈ keys, table.contains key = true) ∧
      ((∀ key ∈ keys, table.contains key = true) →
        (ServerDatabase.lookupGroupIds table keys groupIds).map some
          = groupIds.map some
            ++ keys.map (fun key => (table.lookup key).map (fun info => info.groupId))) := by
  induction keys with
  | nil =>
    intro groupIds
    simp [ServerDatabase.lookupGroupIds]
  | cons key rest ih =>
    intro groupIds
    cases hlook : table.lookup key with
    | none =>
      have hnot : ¬ ∀ k ∈ key :: rest, table.contains k = true := by
        intro hall
        have := hall key (List.mem_cons_self _ _)
        simp [StringKeyTable.contains, hlook] at this
      simp only [ServerDatabase.lookupGroupIds, hlook, List.length_cons]
      refine ⟨by omega, ⟨fun h => by omega, fun h => absurd h hnot⟩, fun h => absurd h hnot⟩
    | some info =>
      obtain ⟨h1, h2, h3⟩ := ih (groupIds ++ [info.groupId])
      have hkey : table.contains key = true := by
        simp [StringKeyTable.contains, hlook]
      have hall : (∀ k ∈ key :: rest, table.contains k = true)
          ↔ ∀ k ∈ rest, table.contains k = true := by
        constructor
        · intro h k hk
          exact h k (List.mem_cons_of_mem _ hk)
        · intro h k hk
          rcases List.mem_cons.mp hk with hk | hk
          · rw [hk]; exact hkey
          · exact h k hk
      simp only [ServerDatabase.lookupGroupIds, hlook, List.length_cons]
      simp only [List.length_append, List.length_singleton] at h1 h2
      refine ⟨by omega, ?_, ?_⟩
      · rw [hall, ← h2]
        constructor <;> intro h <;> omega
      · intro h
        rw [h3 (hall.mp h)]
        simp [hlook]

/-- C10: called with a fresh `groupIds` container, `getGroupIdsForKeys` returns true exactly when
every key of the array is in the KeyInfo table; when it returns true, `groupIds` holds the group
ids of the keys, in the order of the keys; and the KeyInfo table is never modified. -/
theorem getGroupIdsForKeys_true_iff_all_known (db : ServerDatabase) (keys : List String) :
    ((db.getGroupIdsForKeys keys []).result = true
      ↔ ∀ key ∈ keys, db.keys.contains key = true) ∧
    ((db.getGroupIdsForKeys keys []).result = true →
      (db.getGroupIdsForKeys keys []).groupIds.map some
        = keys.map (fun key => (db.keys.lookup key).map (fun info => info.groupId))) ∧
    (db.getGroupIdsForKeys keys []).database.keys = db.keys := by
  obtain ⟨_, h2, h3⟩ := lookupGroupIds_spec db.keys keys []
  simp only [List.length_nil, Nat.zero_add, List.map_nil, List.nil_append] at h2 h3
  have hres : (db.getGroupIdsForKeys keys []).result = true
      ↔ ∀ key ∈ keys, db.keys.contains key = true := by
    rw [← h2]
    unfold ServerDatabase.getGroupIdsForKeys
    simp only []
    split <;> rename_i hlen <;> simpa using hlen
  refine ⟨hres, ?_, ?_⟩
  · intro hr
    have hall := hres.mp hr
    rw [← h3 hall]
    unfold ServerDatabase.getGroupIdsForKeys
    simp only []
    split <;> rfl
  · unfold ServerDatabase.getGroupIdsForKeys
    simp only []
    split <;> rfl

/-- Witness of `getGroupIdsForKeys_true_iff_all_known`: in a table that knows `key-a` and `key-b`,
the keys `[key-b, key-a]` resolve to their group ids in that order. -/
theorem getGroupIdsForKeys_true_iff_all_known_witness :
    (twoKeys.getGroupIdsForKeys ["key-b", "key-a"] []).result = true ∧
    (twoKeys.getGroupIdsForKeys ["key-b", "key-a"] []).groupIds.map some
      = ["key-b", "key-a"].map
          (fun key => (twoKeys.keys.lookup key).map (fun info => info.groupId)) ∧
    (twoKeys.getGroupIdsForKeys ["key-b", "key-a"] []).groupIds = ["group-2", "group-1"] :=
  ⟨by decide,
    (getGroupIdsForKeys_true_iff_all_known twoKeys ["key-b", "key-a"]).2.1 (by decide),
    by decide⟩

/-- A key has an entry in a table exactly when it is among the keys of the entries. -/
theorem contains_iff_mem_keys {V : Type} (table : StringKeyTable V) (key : String) :
    table.contains key = true ↔ key ∈ table.map Prod.fst := by
  induction table with
  | nil => simp [StringKeyTable.contains, StringKeyTable.lookup]
  | cons entry rest ih =>
    obtain ⟨k, v⟩ := entry
    by_cases hk : key = k
    · subst hk
      simp [StringKeyTable.contains, StringKeyTable.lookup, List.lookup_cons]
    · have hbeq : (key == k) = false := by simpa using hk
      simp only [StringKeyTable.contains, StringKeyTable.lookup, List.lookup_cons, hbeq,
        List.map_cons, List.mem_cons, hk, false_or]
      exact ih

/-- Inserting without overwriting leaves a table that has the key as it is, and puts a new key
at its end. -/
theorem insert_no_overwrite {V : Type} (table : StringKeyTable V) (key : String) (value : V) :
    table.insert key value false
      = if table.contains key then table else table ++ [(key, value)] := by
  unfold StringKeyTable.insert StringKeyTable.contains
  cases table.lookup key <;> simp

/-- The second loop adds, behind the entries that were pending, one entry for each key of the
array that was not pending, and nothing else. -/
theorem queueLookups_spec (keys : List String) :
    ∀ pending : StringKeyTable Bool,
      ∃ added : List String,
        ServerDatabase.queueLookups pending keys
          = pending ++ added.map (fun key => (key, true)) ∧
        added.Nodup ∧
        ∀ key, key ∈ added ↔ key ∈ keys ∧ pending.contains key = false := by
  induction keys with
  | nil =>
    intro pending
    exact ⟨[], by simp [ServerDatabase.queueLookups], List.nodup_nil, by simp⟩
  | cons k rest ih =>
    intro pending
    simp only [ServerDatabase.queueLookups, insert_no_overwrite]
    cases hk : pending.contains k with
    | true =>
      obtain ⟨added, heq, hnodup, hmem⟩ := ih pending
      refine ⟨added, by simpa using heq, hnodup, ?_⟩
      intro key
      rw [hmem key]
      constructor
      · rintro ⟨h1, h2⟩
        exact ⟨List.mem_cons_of_mem _ h1, h2⟩
      · rintro ⟨h1, h2⟩
        rcases List.mem_cons.mp h1 with h | h
        · rw [h, hk] at h2
          exact absurd h2 (by simp)
        · exact ⟨h, h2⟩
    | false =>
      obtain ⟨added, heq, hnodup, hmem⟩ := ih (pending ++ [(k, true)])
      have hcont : ∀ key, (pending ++ [(k, true)]).contains key = false
          ↔ pending.contains key = false ∧ key ≠ k := by
        intro key
        rw [← Bool.not_eq_true, ← Bool.not_eq_true, contains_iff_mem_keys,
          contains_iff_mem_keys]
        simp [not_or]
      have hknot : k ∉ added := by
        intro hin
        exact ((hcont k).mp ((hmem k).mp hin).2).2 rfl
      refine ⟨k :: added, ?_, List.nodup_cons.mpr ⟨hknot, hnodup⟩, ?_⟩
      · simp only [Bool.false_eq_true, if_false]
        rw [heq]
        simp
      · intro key
        rw [List.mem_cons, hmem key, hcont key]
        constructor
        · rintro (h | ⟨h1, h2, _⟩)
          · rw [h]
            exact ⟨List.mem_cons_self _ _, hk⟩
          · exact ⟨List.mem_cons_of_mem _ h1, h2⟩
        · rintro ⟨h1, h2⟩
          by_cases hkey : key = k
          · exact Or.inl hkey
          · rcases List.mem_cons.mp h1 with h | h
            · exact absurd h hkey
            · exact Or.inr ⟨h, h2, hkey⟩

/-- C12 (as stated, refuted): with `key-a` known and `key-x` unknown, the call on
`[key-a, key-x]` returns false and puts both keys into the pending-lookup set, the known `key-a`
included. -/
theorem getGroupIdsForKeys_queues_known_key :
    (twoKeys.getGroupIdsForKeys ["key-a", "key-x"] []).result = false ∧
    (twoKeys.getGroupIdsForKeys ["key-a", "key-x"] []).database.queuedGroupIdToKeyLookups
      = [("key-a", true), ("key-x", true)] ∧
    twoKeys.keys.contains "key-a" = true ∧
    (twoKeys.getGroupIdsForKeys ["key-a", "key-x"] []).database.queuedGroupIdToKeyLookups
      ≠ twoKeys.queuedGroupIdToKeyLookups ++ [("key-x", true)] := by
  decide

/-- C12 (amended): when `getGroupIdsForKeys` returns false, the pending-lookup set afterwards is
its previous contents followed by one entry for each key of the array that was not pending yet
(each once, a key already pending is not changed), whether the KeyInfo table knows the key or
not; when it returns true the database, and with it the pending-lookup set, is unchanged. -/
theorem getGroupIdsForKeys_queues_every_key (db : ServerDatabase) (keys : List String) :
    ((db.getGroupIdsForKeys keys []).result = false →
      ∃ added : List String,
        (db.getGroupIdsForKeys keys []).database.queuedGroupIdToKeyLookups
          = db.queuedGroupIdToKeyLookups ++ added.map (fun key => (key, true)) ∧
        added.Nodup ∧
        ∀ key, key ∈ added ↔ key ∈ keys ∧ db.queuedGroupIdToKeyLookups.contains key = false) ∧
    ((db.getGroupIdsForKeys keys []).result = true →
      (db.getGroupIdsForKeys keys []).database = db) := by
  constructor
  · intro hres
    have hdb : (db.getGroupIdsForKeys keys []).database.queuedGroupIdToKeyLookups
        = ServerDatabase.queueLookups db.queuedGroupIdToKeyLookups keys := by
      revert hres
      unfold ServerDatabase.getGroupIdsForKeys
      simp only []
      split
      · intro h
        exact absurd h (by simp)
      · intro _
        rfl
    rw [hdb]
    exact queueLookups_spec keys db.queuedGroupIdToKeyLookups
  · unfold ServerDatabase.getGroupIdsForKeys
    simp only []
    split
    · intro _
      rfl
    · intro h
      exact absurd h (by simp)

/-- Witness of `getGroupIdsForKeys_queues_every_key`: a call with an unknown key returns false and
a call with known keys returns true. -/
theorem getGroupIdsForKeys_queues_every_key_witness :
    (twoKeys.getGroupIdsForKeys ["key-x", "key-a", "key-x"] []).result = false ∧
    (∃ added : List String,
      (twoKeys.getGroupIdsForKeys ["key-x", "key-a", "key-x"] []).database.queuedGroupIdToKeyLookups
        = twoKeys.queuedGroupIdToKeyLookups ++ added.map (fun key => (key, true)) ∧
      added.Nodup ∧
      ∀ key, key ∈ added ↔
        key ∈ ["key-x", "key-a", "key-x"] ∧
          twoKeys.queuedGroupIdToKeyLookups.contains key = false) ∧
    (twoKeys.getGroupIdsForKeys ["key-a"] []).result = true ∧
    (twoKeys.getGroupIdsForKeys ["key-a"] []).database = twoKeys :=
  ⟨by decide,
    (getGroupIdsForKeys_queues_every_key twoKeys ["key-x", "key-a", "key-x"]).1 (by decide),
    by decide,
    (getGroupIdsForKeys_queues_every_key twoKeys ["key-a"]).2 (by decide)⟩

end Passenger.UstRouter.RemoteSink

namespace Passenger

open DiscExponentialAverage

/-! ## DiscExponentialAverage and exponentialMovingAverage -/

/-- For `alpha` below 1000 the decay factor over a positive time is below one. -/
theorem floatingAlpha_rpow_lt_one (alpha : Nat) (exponent : ℝ) (halpha : alpha < 1000)
    (hexp : 0 < exponent) :
    Real.rpow (floatingAlpha alpha) exponent < 1 := by
  have h0 : (0 : ℝ) ≤ floatingAlpha alpha := by
    unfold floatingAlpha
    positivity
  have h1 : (floatingAlpha alpha : ℝ) < 1 := by
    unfold floatingAlpha
    rw [div_lt_one (by norm_num)]
    exact_mod_cast halpha
  exact Real.rpow_lt_one h0 h1 hexp

/-- C13 (as stated, refuted): on a fresh average an `update(5, 0)` is ignored, because `now` is
not greater than the initial `prevTime`; no sample is available and `average()` is not 5. With
`alpha = 1000`, or with `maxAge = 0`, an `update(5, 1)` adds the sample with weight zero. -/
theorem first_update_can_leave_no_sample :
    (update Real.rpow 500 1000000 1000000 (init : DiscExponentialAverage ℝ) 5 0 = init ∧
      (update Real.rpow 500 1000000 1000000 (init : DiscExponentialAverage ℝ) 5 0).available
        = false ∧
      (update Real.rpow 500 1000000 1000000 (init : DiscExponentialAverage ℝ) 5 0).average
        ≠ 5) ∧
    ((update Real.rpow 1000 1000000 1000000 (init : DiscExponentialAverage ℝ) 5 1).sumOfWeights
        = 0 ∧
      (update Real.rpow 1000 1000000 1000000 (init : DiscExponentialAverage ℝ) 5 1).average
        ≠ 5) ∧
    ((update Real.rpow 500 0 1000000 (init : DiscExponentialAverage ℝ) 5 1).sumOfWeights = 0 ∧
      (update Real.rpow 500 0 1000000 (init : DiscExponentialAverage ℝ) 5 1).average ≠ 5) := by
  have hone : ∀ x : ℝ, Real.rpow 1 x = 1 := fun x => Real.one_rpow x
  have hzero : ∀ x : ℝ, Real.rpow x 0 = 1 := fun x => Real.rpow_zero x
  have hlt : (floatingAlpha 500 : ℝ) ^ (1 / 1000000 : ℝ) < 1 :=
    floatingAlpha_rpow_lt_one 500 _ (by norm_num) (by norm_num)
  have hmin : min (1 - (floatingAlpha 500 : ℝ) ^ (1 / 1000000 : ℝ)) 0 = 0 :=
    min_eq_right (by linarith)
  refine ⟨⟨?_, ?_, ?_⟩, ⟨?_, ?_⟩, ⟨?_, ?_⟩⟩
  · simp [update, init]
  · simp [update, init, available]
  · simp [update, init, average]
  · simp [update, init, floatingAlpha, newDataWeightUpperBound, hone]
  · simp [update, init, average, floatingAlpha, newDataWeightUpperBound, hone]
  · simp only [update, init, newDataWeightUpperBound]
    norm_num [hzero, hmin]
  · simp only [update, init, newDataWeightUpperBound, average]
    norm_num [hzero, hmin]

/-- C13 (amended): for `alpha` below 1000, positive `maxAge` and `alphaTimeUnit`, every value `v`
and every timestamp `now` greater than zero, on a freshly constructed DiscExponentialAverage a
single `update(v, now)` makes a sample available and `average()` equal to `v` (exact reals). -/
theorem average_after_first_update (alpha maxAge alphaTimeUnit : Nat) (v : ℝ) (now : Nat)
    (halpha : alpha < 1000) (hage : 0 < maxAge) (hunit : 0 < alphaTimeUnit) (hnow : 0 < now) :
    (update Real.rpow alpha maxAge alphaTimeUnit init v now).available = true ∧
    (update Real.rpow alpha maxAge alphaTimeUnit init v now).average = v := by
  have hunitR : (0 : ℝ) < (alphaTimeUnit : ℝ) := by exact_mod_cast hunit
  have hr : Real.rpow (floatingAlpha alpha) (((now - 0 : Nat) : ℝ) / (alphaTimeUnit : ℝ)) < 1 :=
    floatingAlpha_rpow_lt_one alpha _ halpha
      (div_pos (by rw [Nat.sub_zero]; exact_mod_cast hnow) hunitR)
  have hu : Real.rpow (floatingAlpha alpha) ((maxAge : ℝ) / (alphaTimeUnit : ℝ)) < 1 :=
    floatingAlpha_rpow_lt_one alpha _ halpha (div_pos (by exact_mod_cast hage) hunitR)
  have hw : 0 < min (1 - Real.rpow (floatingAlpha alpha)
        (((now - 0 : Nat) : ℝ) / (alphaTimeUnit : ℝ)))
      (newDataWeightUpperBound Real.rpow alpha maxAge alphaTimeUnit) := by
    unfold newDataWeightUpperBound
    exact lt_min (by linarith) (by linarith)
  have hstate : update Real.rpow alpha maxAge alphaTimeUnit init v now
      = { sumOfWeights := Real.rpow (floatingAlpha alpha)
              (((now - 0 : Nat) : ℝ) / (alphaTimeUnit : ℝ)) * 0
            + min (1 - Real.rpow (floatingAlpha alpha)
                (((now - 0 : Nat) : ℝ) / (alphaTimeUnit : ℝ)))
              (newDataWeightUpperBound Real.rpow alpha maxAge alphaTimeUnit)
          sumOfData := Real.rpow (floatingAlpha alpha)
              (((now - 0 : Nat) : ℝ) / (alphaTimeUnit : ℝ)) * 0
            + min (1 - Real.rpow (floatingAlpha alpha)
                (((now - 0 : Nat) : ℝ) / (alphaTimeUnit : ℝ)))
              (newDataWeightUpperBound Real.rpow alpha maxAge alphaTimeUnit) * v
          sumOfSquaredData := Real.rpow (floatingAlpha alpha)
              (((now - 0 : Nat) : ℝ) / (alphaTimeUnit : ℝ)) * 0
            + min (1 - Real.rpow (floatingAlpha alpha)
                (((now - 0 : Nat) : ℝ) / (alphaTimeUnit : ℝ)))
              (newDataWeightUpperBound Real.rpow alpha maxAge alphaTimeUnit) * Real.rpow v 2
          prevTime := now } := by
    have hnot : ¬ now ≤ (init : DiscExponentialAverage ℝ).prevTime := by
      show ¬ now ≤ 0
      omega
    unfold update
    rw [if_neg hnot]
    rfl
  rw [hstate]
  constructor
  · simp only [available, mul_zero, zero_add, gt_iff_lt, decide_eq_true_eq]
    exact hw
  · simp only [average, mul_zero, zero_add]
    exact mul_div_cancel_left₀ v (ne_of_gt hw)

/-- Witness of `average_after_first_update`: `alpha = 500`, `maxAge` and `alphaTimeUnit` of one
second, a first sample 5 at one second. -/
theorem average_after_first_update_witness :
    500 < 1000 ∧ 0 < 1000000 ∧ 0 < 1000000 ∧
    (update Real.rpow 500 1000000 1000000 init 5 1000000).average = 5 :=
  ⟨by decide, by decide, by decide,
    (average_after_first_update 500 1000000 1000000 5 1000000 (by decide) (by decide)
      (by decide) (by decide)).2⟩

/-- C14: an `update` whose `now` is not greater than `prevTime` leaves the whole state unchanged;
hence a second `update` with the same value and the same timestamp leaves the state, and with it
`average()`, as it was after the first. -/
theorem update_ignores_non_increasing_time (alpha maxAge alphaTimeUnit : Nat)
    (s : DiscExponentialAverage ℝ) (value : ℝ) (now : Nat) :
    (now ≤ s.prevTime → update Real.rpow alpha maxAge alphaTimeUnit s value now = s) ∧
    update Real.rpow alpha maxAge alphaTimeUnit
        (update Real.rpow alpha maxAge alphaTimeUnit s value now) value now
      = update Real.rpow alpha maxAge alphaTimeUnit s value now ∧
    (update Real.rpow alpha maxAge alphaTimeUnit
        (update Real.rpow alpha maxAge alphaTimeUnit s value now) value now).average
      = (update Real.rpow alpha maxAge alphaTimeUnit s value now).average := by
  have hnoop : ∀ t : DiscExponentialAverage ℝ, now ≤ t.prevTime →
      update Real.rpow alpha maxAge alphaTimeUnit t value now = t := by
    intro t ht
    unfold update
    rw [if_pos ht]
  have htwice : update Real.rpow alpha maxAge alphaTimeUnit
        (update Real.rpow alpha maxAge alphaTimeUnit s value now) value now
      = update Real.rpow alpha maxAge alphaTimeUnit s value now := by
    apply hnoop
    by_cases h : now ≤ s.prevTime
    · rw [hnoop s h]
      exact h
    · unfold update
      rw [if_neg h]
  exact ⟨hnoop s, htwice, by rw [htwice]⟩

/-- Witness of `update_ignores_non_increasing_time`: an update at the time of the previous
update. -/
theorem update_ignores_non_increasing_time_witness :
    10 ≤ (⟨1, 5, 25, 10⟩ : DiscExponentialAverage ℝ).prevTime ∧
    update Real.rpow 500 1000000 1000000 (⟨1, 5, 25, 10⟩ : DiscExponentialAverage ℝ) 7 10
      = ⟨1, 5, 25, 10⟩ :=
  ⟨le_refl 10,
    (update_ignores_non_increasing_time 500 1000000 1000000 ⟨1, 5, 25, 10⟩ 7 10).1
      (le_refl 10)⟩

/-- C16: `exponentialMovingAverage` returns `currentValue` when `prevAverage` equals `nullValue`,
and `alpha * currentValue + (1 - alpha) * prevAverage` otherwise (exact reals). -/
theorem exponentialMovingAverage_spec (prevAverage currentValue alpha nullValue : ℝ) :
    (prevAverage = nullValue →
      exponentialMovingAverage prevAverage currentValue alpha nullValue = currentValue) ∧
    (prevAverage ≠ nullValue →
      exponentialMovingAverage prevAverage currentValue alpha nullValue
        = alpha * currentValue + (1 - alpha) * prevAverage) := by
  constructor
  · intro h
    unfold exponentialMovingAverage
    rw [if_pos h]
  · intro h
    unfold exponentialMovingAverage
    rw [if_neg h]

/-- Witness of `exponentialMovingAverage_spec`: the first sample 8 against the null value `-1`,
and the sample 8 folded into an average of 4 with `alpha = 1/4`. -/
theorem exponentialMovingAverage_spec_witness :
    exponentialMovingAverage (-1 : ℝ) 8 (1 / 4) (-1) = 8 ∧
    exponentialMovingAverage (4 : ℝ) 8 (1 / 4) (-1) = 1 / 4 * 8 + (1 - 1 / 4) * 4 :=
  ⟨(exponentialMovingAverage_spec (-1) 8 (1 / 4) (-1)).1 rfl,
    (exponentialMovingAverage_spec 4 8 (1 / 4) (-1)).2 (by norm_num)⟩

end Passenger

namespace Passenger.UstRouter.RemoteSender

/-! ## BasicCounter -/

/-- C20 (as stated, refuted): at `count = 2^32 - 1` an `increment` wraps the count to zero, and
the `decrement` that follows fails its assertion instead of restoring the count. -/
theorem increment_then_decrement_fails_at_max :
    (⟨0, 2 ^ 32 - 1⟩ : BasicCounter).increment 5 0 = ⟨5, 0⟩ ∧
    ((⟨0, 2 ^ 32 - 1⟩ : BasicCounter).increment 5 0).decrement 6 0 = none := by
  decide

/-- C20 (amended): `decrement` fails exactly when `count` is zero and otherwise lowers `count` by
exactly one; `increment` raises `count` by one modulo `2^32`; when `count` is below `2^32 - 1`
an `increment` followed by a `decrement` restores the original count; and `increment`,
`decrement` and `update` called with a non-zero `now` set `lastActivity` to that `now`. -/
theorem counter_mutations (s : BasicCounter) (now usec : Nat) :
    (s.decrement now usec = none ↔ s.count = 0) ∧
    (∀ r, s.decrement now usec = some r → r.count + 1 = s.count) ∧
    (s.increment now usec).count = (s.count + 1) % UINT_MOD ∧
    (s.count + 1 < UINT_MOD → ∀ now2 usec2,
      ∃ r, (s.increment now usec).decrement now2 usec2 = some r ∧ r.count = s.count) ∧
    (now ≠ 0 →
      (s.increment now usec).lastActivity = now ∧
      (∀ r, s.decrement now usec = some r → r.lastActivity = now) ∧
      ∀ value, (s.update value now usec).lastActivity = now) := by
  refine ⟨?_, ?_, rfl, ?_, ?_⟩
  · unfold BasicCounter.decrement
    split
    · simp only [reduceCtorEq, false_iff]
      omega
    · simp only [true_iff]
      omega
  · intro r hr
    unfold BasicCounter.decrement at hr
    split at hr
    · simp only [Option.some.injEq] at hr
      subst hr
      show s.count - 1 + 1 = s.count
      omega
    · exact absurd hr (by simp)
  · intro hlt now2 usec2
    have hcount : (s.increment now usec).count = s.count + 1 := Nat.mod_eq_of_lt hlt
    refine ⟨(s.increment now usec).update ((s.increment now usec).count - 1) now2 usec2, ?_, ?_⟩
    · unfold BasicCounter.decrement
      rw [if_pos (by rw [hcount]; omega)]
    · show (s.increment now usec).count - 1 = s.count
      rw [hcount]
      omega
  · intro hnow
    refine ⟨?_, ?_, ?_⟩
    · simp [BasicCounter.increment, BasicCounter.update, hnow]
    · intro r hr
      unfold BasicCounter.decrement at hr
      split at hr
      · simp only [Option.some.injEq] at hr
        subst hr
        simp [BasicCounter.update, hnow]
      · exact absurd hr (by simp)
    · intro value
      simp [BasicCounter.update, hnow]

/-- Witness of `counter_mutations`: a counter at 3 is incremented at time 7 and decremented back
at time 9. -/
theorem counter_mutations_witness :
    (⟨1, 3⟩ : BasicCounter).count + 1 < UINT_MOD ∧ (7 : Nat) ≠ 0 ∧
    (∃ r, ((⟨1, 3⟩ : BasicCounter).increment 7 0).decrement 9 0 = some r ∧ r.count = 3) ∧
    ((⟨1, 3⟩ : BasicCounter).increment 7 0).lastActivity = 7 :=
  ⟨by decide, by decide,
    (counter_mutations ⟨1, 3⟩ 7 0).2.2.2.1 (by decide) 9 0,
    ((counter_mutations ⟨1, 3⟩ 7 0).2.2.2.2 (by decide)).1⟩

end Passenger.UstRouter.RemoteSender


namespace Passenger.UstRouter.RemoteSender

/-! ## Server -/

/-- Data that fits in front of `end` is stored behind the bytes stored so far. -/
theorem appendData_of_fits (buffer : List Char) (endOffset : Nat) (data : List Char)
    (h : buffer.length + data.length ≤ endOffset) :
    appendData buffer endOffset data = some (buffer ++ data) := by
  unfold appendData
  rw [if_pos h]

/-- The array `hostHeader` has 66 bytes. -/
theorem hostHeaderCapacity_eq : hostHeaderCapacity = 66 := by
  decide

/-- The arrays `pingUrl` and `sinkUrl` have 76 bytes. -/
theorem urlCapacity_eq : urlCapacity = 76 := by
  decide

/-- A host name that fits is stored behind `Host: `. -/
theorem generateHostHeader_of_fits (hostName : List Char)
    (hhost : ("Host: ".toList ++ hostName).length + 1 ≤ hostHeaderCapacity) :
    Server.generateHostHeader hostName = some ("Host: ".toList ++ hostName) := by
  rw [hostHeaderCapacity_eq] at hhost
  have h6 : "Host: ".toList.length = 6 := rfl
  rw [List.length_append, h6] at hhost
  unfold Server.generateHostHeader
  rw [hostHeaderCapacity_eq]
  have h1 : appendData [] (66 - 1) "Host: ".toList = some "Host: ".toList :=
    appendData_of_fits [] _ _ (by rw [h6]; decide)
  have h2 : appendData "Host: ".toList (66 - 1) hostName = some ("Host: ".toList ++ hostName) :=
    appendData_of_fits _ _ _ (by rw [h6]; omega)
  simp only [h1, h2, Option.bind_eq_bind, Option.some_bind]

/-- An ip and a port that leave room for the path are stored as scheme, ip (in brackets when it
looks like IPv6), colon and decimal port. -/
theorem generateBaseUrl_of_fits (looksLikeIPv6 : List Char → Bool) (ip : List Char) (port : Nat)
    (hurl : ((if looksLikeIPv6 ip then "https://[".toList ++ ip ++ "]".toList
        else "https://".toList ++ ip) ++ ":".toList ++ Nat.toDigits 10 port
          ++ "/ping".toList).length + 1 ≤ urlCapacity) :
    Server.generateBaseUrl looksLikeIPv6 ip port
      = some ((if looksLikeIPv6 ip then "https://[".toList ++ ip ++ "]".toList
          else "https://".toList ++ ip) ++ ":".toList ++ Nat.toDigits 10 port) := by
  rw [urlCapacity_eq] at hurl
  have h9 : "https://[".toList.length = 9 := rfl
  have h8 : "https://".toList.length = 8 := rfl
  have h1 : "]".toList.length = 1 := rfl
  have hc : ":".toList.length = 1 := rfl
  have h5 : "/ping".toList.length = 5 := rfl
  unfold Server.generateBaseUrl uintToString
  rw [urlCapacity_eq]
  cases hv6 : looksLikeIPv6 ip with
  | true =>
    simp only [hv6, if_true, List.length_append, h9, h1, hc, h5] at hurl
    have a1 : appendData [] (76 - 1) "https://[".toList = some "https://[".toList :=
      appendData_of_fits [] _ _ (by rw [h9]; decide)
    have a2 : appendData "https://[".toList (76 - 1) ip = some ("https://[".toList ++ ip) :=
      appendData_of_fits _ _ _ (by rw [h9]; omega)
    have a3 : appendData ("https://[".toList ++ ip) (76 - 1) "]".toList
        = some ("https://[".toList ++ ip ++ "]".toList) :=
      appendData_of_fits _ _ _ (by rw [List.length_append, h9, h1]; omega)
    have a4 : appendData ("https://[".toList ++ ip ++ "]".toList) (76 - 1) ":".toList
        = some ("https://[".toList ++ ip ++ "]".toList ++ ":".toList) :=
      appendData_of_fits _ _ _
        (by rw [List.length_append, List.length_append, h9, h1, hc]; omega)
    have a5 : (Nat.toDigits 10 port).length
        < 76 - 1 - ("https://[".toList ++ ip ++ "]".toList ++ ":".toList).length := by
      rw [List.length_append, List.length_append, List.length_append, h9, h1, hc]
      omega
    simp only [if_true, a1, a2, a3, a4, a5, Option.bind_eq_bind, Option.some_bind]
  | false =>
    simp only [hv6, Bool.false_eq_true, if_false, List.length_append, h8, hc, h5] at hurl
    have a1 : appendData [] (76 - 1) "https://".toList = some "https://".toList :=
      appendData_of_fits [] _ _ (by rw [h8]; decide)
    have a2 : appendData "https://".toList (76 - 1) ip = some ("https://".toList ++ ip) :=
      appendData_of_fits _ _ _ (by rw [h8]; omega)
    have a4 : appendData ("https://".toList ++ ip) (76 - 1) ":".toList
        = some ("https://".toList ++ ip ++ ":".toList) :=
      appendData_of_fits _ _ _ (by rw [List.length_append, h8, hc]; omega)
    have a5 : (Nat.toDigits 10 port).length
        < 76 - 1 - ("https://".toList ++ ip ++ ":".toList).length := by
      rw [List.length_append, List.length_append, h8, hc]
      omega
    simp only [Bool.false_eq_true, if_false, a1, a2, a4, a5, if_true, Option.bind_eq_bind,
      Option.some_bind]

/-- The Server that the constructor builds from a base URL `base` that leaves room for the path,
a host name that fits and a certificate path that fits its array. -/
theorem create_of_fits (looksLikeIPv6 : List Char → Bool) (PATH_MAX hostHeaderSize : Nat)
    (ip : List Char) (port : Nat) (hostName certificate base : List Char)
    (hhost : ("Host: ".toList ++ hostName).length + 1 ≤ hostHeaderCapacity)
    (hbase : Server.generateBaseUrl looksLikeIPv6 ip port = some base)
    (hurl : (base ++ "/ping".toList).length + 1 ≤ urlCapacity)
    (hcert : certificate.length ≤ PATH_MAX + 1) :
    Server.create looksLikeIPv6 PATH_MAX hostHeaderSize ip port hostName certificate
      = some
        { hostHeaderSize := hostHeaderSize
          pingUrlSize := (base ++ "/ping".toList).length
          sinkUrlSize := (base ++ "/sink".toList).length
          hostHeader := "Host: ".toList ++ hostName ++ [NUL]
          pingUrl := base ++ "/ping".toList ++ [NUL]
          sinkUrl := base ++ "/sink".toList ++ [NUL]
          certificatePathSize := min (PATH_MAX % UINT_MOD) (certificate.length % UINT_MOD)
          certificatePath := storeByte certificate
            (min (PATH_MAX % UINT_MOD) (certificate.length % UINT_MOD)) NUL } := by
  rw [urlCapacity_eq] at hurl
  have h5 : "/ping".toList.length = 5 := rfl
  have h5s : "/sink".toList.length = 5 := rfl
  rw [List.length_append, h5] at hurl
  have hhostHeader := generateHostHeader_of_fits hostName hhost
  have a1 : appendData base (76 - 1) "/ping".toList = some (base ++ "/ping".toList) :=
    appendData_of_fits _ _ _ (by rw [h5]; omega)
  have htake : (base ++ "/ping".toList ++ [NUL]).take base.length = base := by
    rw [List.append_assoc, List.take_left']
    rfl
  have a2 : appendData [] (76 - 1) base = some base :=
    appendData_of_fits [] _ _ (by simp only [List.length_nil]; omega)
  have a3 : appendData base (76 - 1) "/sink".toList = some (base ++ "/sink".toList) :=
    appendData_of_fits _ _ _ (by rw [h5s]; omega)
  have hmod : (base ++ "/ping".toList).length % 256 = (base ++ "/ping".toList).length :=
    Nat.mod_eq_of_lt (by rw [List.length_append, h5]; omega)
  have hmods : (base ++ "/sink".toList).length % 256 = (base ++ "/sink".toList).length :=
    Nat.mod_eq_of_lt (by rw [List.length_append, h5s]; omega)
  have hnot : ¬ certificate.length > PATH_MAX + 1 := by omega
  unfold Server.create
  rw [urlCapacity_eq]
  simp only [hhostHeader, hbase, a1, htake, a2, a3, hmod, hmods, hnot, if_false,
    Option.bind_eq_bind, Option.some_bind, List.nil_append]

/-- C17: for an ip, a port and a host name that fit the arrays, the constructor returns a Server
whose `getPingUrl` is `https://` + ip + `:` + the decimal digits of the port + `/ping` and whose
`getSinkUrl` is the same with `/sink`, the ip standing in `[` and `]` exactly when it looks like
IPv6; the two URLs share everything in front of the final path segment. -/
theorem server_urls (looksLikeIPv6 : List Char → Bool) (PATH_MAX hostHeaderSize : Nat)
    (ip : List Char) (port : Nat) (hostName certificate : List Char)
    (hhost : ("Host: ".toList ++ hostName).length + 1 ≤ hostHeaderCapacity)
    (hurl : ((if looksLikeIPv6 ip then "https://[".toList ++ ip ++ "]".toList
        else "https://".toList ++ ip) ++ ":".toList ++ Nat.toDigits 10 port
          ++ "/ping".toList).length + 1 ≤ urlCapacity)
    (hcert : certificate.length ≤ PATH_MAX + 1) :
    ∃ server,
      Server.create looksLikeIPv6 PATH_MAX hostHeaderSize ip port hostName certificate
        = some server ∧
      (looksLikeIPv6 ip = false →
        server.getPingUrl
          = "https://".toList ++ ip ++ ":".toList ++ Nat.toDigits 10 port ++ "/ping".toList ∧
        server.getSinkUrl
          = "https://".toList ++ ip ++ ":".toList ++ Nat.toDigits 10 port ++ "/sink".toList) ∧
      (looksLikeIPv6 ip = true →
        server.getPingUrl
          = "https://[".toList ++ ip ++ "]".toList ++ ":".toList ++ Nat.toDigits 10 port
            ++ "/ping".toList ∧
        server.getSinkUrl
          = "https://[".toList ++ ip ++ "]".toList ++ ":".toList ++ Nat.toDigits 10 port
            ++ "/sink".toList) ∧
      ∃ base, server.getPingUrl = base ++ "/ping".toList ∧
        server.getSinkUrl = base ++ "/sink".toList := by
  have hbase := generateBaseUrl_of_fits looksLikeIPv6 ip port hurl
  have hcreate := create_of_fits looksLikeIPv6 PATH_MAX hostHeaderSize ip port hostName
    certificate _ hhost hbase hurl hcert
  have hping : ∀ base : List Char,
      (base ++ "/ping".toList ++ [NUL]).take (base ++ "/ping".toList).length
        = base ++ "/ping".toList := fun base => List.take_left' rfl
  have hsink : ∀ base : List Char,
      (base ++ "/sink".toList ++ [NUL]).take (base ++ "/sink".toList).length
        = base ++ "/sink".toList := fun base => List.take_left' rfl
  refine ⟨_, hcreate, ?_, ?_,
    (if looksLikeIPv6 ip then "https://[".toList ++ ip ++ "]".toList
      else "https://".toList ++ ip) ++ ":".toList ++ Nat.toDigits 10 port, ?_, ?_⟩
  · intro hv6
    simp only [Server.getPingUrl, Server.getSinkUrl, hping, hsink]
    simp only [hv6, Bool.false_eq_true, if_false, and_self]
  · intro hv6
    simp only [Server.getPingUrl, Server.getSinkUrl, hping, hsink]
    simp only [hv6, if_true, and_self]
  · exact hping _
  · exact hsink _

/-- Witness of `server_urls`: the endpoint `10.0.0.1:3000` with host name `example.com`, an ip
looking like IPv6 when it holds a colon. -/
theorem server_urls_witness :
    ("Host: ".toList ++ "example.com".toList).length + 1 ≤ hostHeaderCapacity ∧
    "/etc/cert.pem".toList.length ≤ 4096 + 1 ∧
    ∃ server,
      Server.create (fun ip => ip.contains ':') 4096 0 "10.0.0.1".toList 3000
        "example.com".toList "/etc/cert.pem".toList = some server ∧
      server.getPingUrl = "https://10.0.0.1:3000/ping".toList ∧
      server.getSinkUrl = "https://10.0.0.1:3000/sink".toList :=
  ⟨by decide, by decide,
    (server_urls (fun ip => ip.contains ':') 4096 0 "10.0.0.1".toList 3000
      "example.com".toList "/etc/cert.pem".toList (by decide) (by decide) (by decide)).imp
      (fun _ h => ⟨h.1, (h.2.1 (by decide)).1, (h.2.1 (by decide)).2⟩)⟩

/-- C18 (the code at the failing input): the constructor stores `Host: example.com` in
`hostHeader` but never assigns `hostHeaderSize`; with the member at 0, `getHostHeader` returns
the empty string, not `Host: example.com` of length 17. -/
theorem getHostHeader_reads_unassigned_size :
    ∃ server,
      Server.create (fun ip => ip.contains ':') 4096 0 "10.0.0.1".toList 3000
        "example.com".toList [] = some server ∧
      server.hostHeader = "Host: example.com".toList ++ [NUL] ∧
      server.hostHeaderSize = 0 ∧
      server.pingUrlSize = "https://10.0.0.1:3000/ping".toList.length ∧
      server.getHostHeader = [] ∧
      server.getHostHeader ≠ "Host: ".toList ++ "example.com".toList ∧
      server.getHostHeader.length ≠ 6 + "example.com".toList.length := by
  refine ⟨_, rfl, ?_, ?_, ?_, ?_, ?_, ?_⟩ <;> decide

/-- A certificate path longer than the array `certificatePath[PATH_MAX + 1]` makes the `memcpy` of
the constructor run past the end of the array. -/
theorem create_of_long_certificate (looksLikeIPv6 : List Char → Bool)
    (PATH_MAX hostHeaderSize : Nat) (ip : List Char) (port : Nat)
    (hostName certificate : List Char) (hlong : PATH_MAX + 1 < certificate.length) :
    Server.create looksLikeIPv6 PATH_MAX hostHeaderSize ip port hostName certificate = none := by
  have hnone : ∀ {α β : Type} (o : Option α), (o.bind fun _ => (none : Option β)) = none := by
    intro α β o
    cases o <;> rfl
  unfold Server.create
  simp only [Option.bind_eq_bind, gt_iff_lt, hlong, if_true, hnone]

/-- A certificate path of at most `PATH_MAX + 1` bytes is read back clipped to `PATH_MAX`
bytes. -/
theorem certificatePath_clipped (PATH_MAX : Nat) (certificate : List Char)
    (hmax : PATH_MAX + 1 < UINT_MOD) (hcert : certificate.length ≤ PATH_MAX + 1) :
    (storeByte certificate (min (PATH_MAX % UINT_MOD) (certificate.length % UINT_MOD)) NUL).take
        (min (PATH_MAX % UINT_MOD) (certificate.length % UINT_MOD))
      = certificate.take (min PATH_MAX certificate.length) := by
  have h1 : PATH_MAX % UINT_MOD = PATH_MAX := Nat.mod_eq_of_lt (by omega)
  have h2 : certificate.length % UINT_MOD = certificate.length := Nat.mod_eq_of_lt (by omega)
  rw [h1, h2]
  unfold storeByte
  split
  · rw [List.set_take, List.set_eq_of_length_le]
    rw [List.length_take]
    omega
  · rename_i hge
    have hsize : min PATH_MAX certificate.length = certificate.length := by omega
    rw [hsize, List.take_left' rfl, List.take_length]

/-- C19 (the code at the failing input): with `PATH_MAX = 4096`, a certificate path of 4098 bytes
makes the constructor copy 4098 bytes into `certificatePath[4097]` before it clips the size, so
the construction does not succeed; a path of 4097 bytes still fits the array and is clipped to
4096 bytes. -/
theorem create_overflows_on_long_certificate :
    Server.create (fun ip => ip.contains ':') 4096 0 "10.0.0.1".toList 3000
      "example.com".toList (List.replicate 4098 'a') = none ∧
    ∃ server,
      Server.create (fun ip => ip.contains ':') 4096 0 "10.0.0.1".toList 3000
        "example.com".toList (List.replicate 4097 'a') = some server ∧
      server.getCertificatePath = List.replicate 4096 'a' := by
  have hlen98 : (List.replicate 4098 'a').length = 4098 := List.length_replicate _ _
  have hlen97 : (List.replicate 4097 'a').length = 4097 := List.length_replicate _ _
  constructor
  · exact create_of_long_certificate _ 4096 0 _ 3000 _ _ (by rw [hlen98]; decide)
  · have hbase := generateBaseUrl_of_fits (fun ip => ip.contains ':') "10.0.0.1".toList 3000
      (by decide)
    have hcreate := create_of_fits (fun ip => ip.contains ':') 4096 0 "10.0.0.1".toList 3000
      "example.com".toList (List.replicate 4097 'a') _ (by decide) hbase (by decide)
      (by rw [hlen97])
    refine ⟨_, hcreate, ?_⟩
    have hclip := certificatePath_clipped 4096 (List.replicate 4097 'a') (by decide)
      (by rw [hlen97])
    simp only [Server.getCertificatePath]
    rw [hclip, hlen97, List.take_replicate]
    have hmin : min (min 4096 4097) 4097 = 4096 := by decide
    rw [hmin]

end Passenger.UstRouter.RemoteSender

namespace Passenger.UstRouter.RemoteSink

open Examples

/-! ## The peak size -/

/-- No operation lowers `peakSize`. -/
theorem applyOp_peakSize_le (s next : Batcher) (op : Batcher.Op)
    (h : s.applyOp op = some next) : s.peakSize ≤ next.peakSize := by
  cases op with
  | add transactions totalBodySize count now =>
    simp only [Batcher.applyOp, Batcher.add] at h
    split at h
    · exact absurd h (by simp)
    · split at h
      · simp only [Option.map_some', Option.some.injEq] at h
        subst h
        exact le_refl _
      · simp only [Option.map_some', Option.some.injEq] at h
        subst h
        exact le_max_left _ _
  | consumeQueue usec =>
    simp only [Batcher.applyOp, Batcher.consumeQueue] at h
    split at h
    · exact absurd h (by simp)
    · split at h
      · exact absurd h (by simp)
      · simp only [Option.map_some', Option.some.injEq] at h
        subst h
        exact le_refl _
  | clearProcessingStatistics usec =>
    simp only [Batcher.applyOp, Option.some.injEq] at h
    subst h
    exact le_refl _

/-- One operation offering at most `m` bytes keeps `peakSize` at or above
`bytesQueued + bytesProcessing`, as long as the bytes held stay within `limit + m`. -/
theorem applyOp_keeps_peak (m : Nat) (s next : Batcher) (op : Batcher.Op)
    (hlm : s.limit + m < SIZE_T_MOD) (hop : op.offeredBytes ≤ m)
    (hinv : s.bytesQueued + s.bytesProcessing ≤ s.limit + m)
    (hpeak : s.bytesQueued + s.bytesProcessing ≤ s.peakSize)
    (h : s.applyOp op = some next) :
    next.bytesQueued + next.bytesProcessing ≤ next.peakSize := by
  cases op with
  | add transactions totalBodySize count now =>
    simp only [Batcher.Op.offeredBytes] at hop
    simp only [Batcher.applyOp, Batcher.add] at h
    split at h
    · exact absurd h (by simp)
    · split at h
      · simp only [Option.map_some', Option.some.injEq] at h
        subst h
        exact hpeak
      · rename_i hle
        rw [Nat.mod_eq_of_lt (by omega)] at hle
        simp only [Option.map_some', Option.some.injEq] at h
        subst h
        have h1 : (s.bytesQueued + totalBodySize) % SIZE_T_MOD
            = s.bytesQueued + totalBodySize := Nat.mod_eq_of_lt (by omega)
        have h2 : (s.bytesQueued + totalBodySize + s.bytesProcessing) % SIZE_T_MOD
            = s.bytesQueued + totalBodySize + s.bytesProcessing :=
          Nat.mod_eq_of_lt (by omega)
        show (s.bytesQueued + totalBodySize) % SIZE_T_MOD + s.bytesProcessing
          ≤ max s.peakSize
            (((s.bytesQueued + totalBodySize) % SIZE_T_MOD + s.bytesProcessing) % SIZE_T_MOD)
        rw [h1, h2]
        exact le_max_right _ _
  | consumeQueue usec =>
    simp only [Batcher.applyOp, Batcher.consumeQueue] at h
    split at h
    · exact absurd h (by simp)
    · split at h
      · exact absurd h (by simp)
      · simp only [Option.map_some', Option.some.injEq] at h
        subst h
        show 0 + s.bytesQueued ≤ s.peakSize
        omega
  | clearProcessingStatistics usec =>
    simp only [Batcher.applyOp, Option.some.injEq] at h
    subst h
    show s.bytesQueued + 0 ≤ s.peakSize
    omega

/-- A sequence of operations, each offering at most `m` bytes, keeps `peakSize` at or above
`bytesQueued + bytesProcessing`. -/
theorem run_keeps_peak (m : Nat) (ops : List Batcher.Op) :
    ∀ (s final : Batcher), s.limit + m < SIZE_T_MOD →
      (∀ op ∈ ops, op.offeredBytes ≤ m) →
      s.bytesQueued + s.bytesProcessing ≤ s.limit + m →
      s.bytesQueued + s.bytesProcessing ≤ s.peakSize →
      s.run ops = some final →
      final.bytesQueued + final.bytesProcessing ≤ final.peakSize := by
  induction ops with
  | nil =>
    intro s final _ _ _ hpeak h
    simp only [Batcher.run, Option.some.injEq] at h
    subst h
    exact hpeak
  | cons op ops ih =>
    intro s final hlm hops hinv hpeak h
    simp only [Batcher.run] at h
    cases hstep : s.applyOp op with
    | none => simp [hstep] at h
    | some next =>
      rw [hstep] at h
      simp only [Option.some_bind] at h
      have hop := hops op (List.mem_cons_self _ _)
      obtain ⟨hl, hi⟩ := applyOp_keeps_overshoot m s next op hlm hop hinv hstep
      have hp := applyOp_keeps_peak m s next op hlm hop hinv hpeak hstep
      exact ih next final (by rw [hl]; exact hlm)
        (fun o ho => hops o (List.mem_cons_of_mem _ ho)) hi hp h

/-- The run `peakOps` from the empty Batcher with the largest limit ends in `peakFinal`. -/
theorem run_peakOps : (Batcher.initial (2 ^ 64 - 1)).run peakOps = some peakFinal := by
  simp only [peakOps, Batcher.run, Batcher.applyOp, Batcher.add, Batcher.consumeQueue,
    Batcher.initial, peakFinal, STAILQ_CONCAT, STAILQ_SWAP, usecOfTstamp_zero]
  decide

/-- C21 (as stated, refuted): under the largest limit, an `add` of `2^64 - 1` bytes, a
`consumeQueue` and an `add` of one more byte reach a state that holds `2^64` bytes while
`peakSize` stands at `2^64 - 1`: the `size_t` sum that `add` compares with the peak wraps to
zero. -/
theorem peakSize_below_held_bytes_after_wrap :
    (Batcher.initial (2 ^ 64 - 1)).run peakOps = some peakFinal ∧
    ¬ (peakFinal.peakSize ≥ peakFinal.bytesQueued + peakFinal.bytesProcessing) :=
  ⟨run_peakOps, by decide⟩

/-- C21 (amended): `peakSize` never decreases across any `add`, `consumeQueue` or
`clearProcessingStatistics` step, from any state; and in every state reached from the initial
state (all counters zero) by such steps in which each `add` offers at most `m` bytes, with
`limit + m` below `2^64` so that no `size_t` sum wraps,
`peakSize >= bytesQueued + bytesProcessing`. -/
theorem peakSize_is_high_water_mark (limit m : Nat) (ops : List Batcher.Op) (s : Batcher)
    (hlm : limit + m < SIZE_T_MOD) (hops : ∀ op ∈ ops, op.offeredBytes ≤ m)
    (h : (Batcher.initial limit).run ops = some s) :
    s.peakSize ≥ s.bytesQueued + s.bytesProcessing ∧
    ∀ (t next : Batcher) (op : Batcher.Op), t.applyOp op = some next →
      t.peakSize ≤ next.peakSize := by
  refine ⟨?_, fun t next op hstep => applyOp_peakSize_le t next op hstep⟩
  exact run_keeps_peak m ops (Batcher.initial limit) s hlm hops
    (by show 0 + 0 ≤ limit + m; omega) (by show 0 + 0 ≤ 0; omega) h

/-- Witness of `peakSize_is_high_water_mark`: under a limit of 50 bytes the run `budgetOps` ends
with 80 bytes held and a peak of 80 bytes. -/
theorem peakSize_is_high_water_mark_witness :
    50 + 40 < SIZE_T_MOD ∧
    (∀ op ∈ budgetOps, op.offeredBytes ≤ 40) ∧
    (Batcher.initial 50).run budgetOps = some budgetFinal ∧
    budgetFinal.peakSize ≥ budgetFinal.bytesQueued + budgetFinal.bytesProcessing :=
  ⟨by decide, budgetOps_offer_at_most_40, run_budgetOps,
    (peakSize_is_high_water_mark 50 40 budgetOps budgetFinal (by decide)
      budgetOps_offer_at_most_40 run_budgetOps).1⟩

end Passenger.UstRouter.RemoteSink

namespace Passenger

open DiscExponentialAverage

/-! ## Invariants of DiscExponentialAverage -/

/-- For `alpha` in `[0, 1000]` the decay factor over a non-negative time lies in `[0, 1]`. -/
theorem floatingAlpha_rpow_mem_unit (alpha : Nat) (exponent : ℝ) (halpha : alpha ≤ 1000)
    (hexp : 0 ≤ exponent) :
    0 ≤ Real.rpow (floatingAlpha alpha) exponent ∧
    Real.rpow (floatingAlpha alpha) exponent ≤ 1 := by
  have h0 : (0 : ℝ) ≤ floatingAlpha alpha := by
    unfold floatingAlpha
    positivity
  have h1 : (floatingAlpha alpha : ℝ) ≤ 1 := by
    unfold floatingAlpha
    rw [div_le_one (by norm_num)]
    exact_mod_cast halpha
  exact ⟨Real.rpow_nonneg h0 exponent, Real.rpow_le_one h0 h1 hexp⟩

/-- An `update` whose `now` is greater than `prevTime` folds the sample in with the decay factor
`r` and the new-data weight `min (1 - r) (newDataWeightUpperBound)`. -/
theorem update_of_later (alpha maxAge alphaTimeUnit : Nat) (s : DiscExponentialAverage ℝ)
    (value : ℝ) (now : Nat) (hnow : s.prevTime < now) :
    update Real.rpow alpha maxAge alphaTimeUnit s value now
      = { sumOfWeights :=
            Real.rpow (floatingAlpha alpha)
                (((now - s.prevTime : Nat) : ℝ) / (alphaTimeUnit : ℝ)) * s.sumOfWeights
              + min (1 - Real.rpow (floatingAlpha alpha)
                  (((now - s.prevTime : Nat) : ℝ) / (alphaTimeUnit : ℝ)))
                (newDataWeightUpperBound Real.rpow alpha maxAge alphaTimeUnit)
          sumOfData :=
            Real.rpow (floatingAlpha alpha)
                (((now - s.prevTime : Nat) : ℝ) / (alphaTimeUnit : ℝ)) * s.sumOfData
              + min (1 - Real.rpow (floatingAlpha alpha)
                  (((now - s.prevTime : Nat) : ℝ) / (alphaTimeUnit : ℝ)))
                (newDataWeightUpperBound Real.rpow alpha maxAge alphaTimeUnit) * value
          sumOfSquaredData :=
            Real.rpow (floatingAlpha alpha)
                (((now - s.prevTime : Nat) : ℝ) / (alphaTimeUnit : ℝ)) * s.sumOfSquaredData
              + min (1 - Real.rpow (floatingAlpha alpha)
                  (((now - s.prevTime : Nat) : ℝ) / (alphaTimeUnit : ℝ)))
                (newDataWeightUpperBound Real.rpow alpha maxAge alphaTimeUnit)
                * Real.rpow value 2
          prevTime := now } := by
  unfold update
  rw [if_neg (by omega)]

/-- For `alpha` in `[0, 1000]` the new-data weight of an `update` lies between zero and
`1 - r`, and is at most the upper bound `1 - (alpha/1000)^(maxAge/alphaTimeUnit)`. -/
theorem newDataWeight_bounds (alpha maxAge alphaTimeUnit : Nat) (elapsed : Nat)
    (halpha : alpha ≤ 1000) :
    0 ≤ min (1 - Real.rpow (floatingAlpha alpha) ((elapsed : ℝ) / (alphaTimeUnit : ℝ)))
        (newDataWeightUpperBound Real.rpow alpha maxAge alphaTimeUnit) ∧
    min (1 - Real.rpow (floatingAlpha alpha) ((elapsed : ℝ) / (alphaTimeUnit : ℝ)))
        (newDataWeightUpperBound Real.rpow alpha maxAge alphaTimeUnit)
      ≤ 1 - Real.rpow (floatingAlpha alpha) ((elapsed : ℝ) / (alphaTimeUnit : ℝ)) := by
  have hr := floatingAlpha_rpow_mem_unit alpha ((elapsed : ℝ) / (alphaTimeUnit : ℝ)) halpha
    (by positivity)
  have hu := floatingAlpha_rpow_mem_unit alpha ((maxAge : ℝ) / (alphaTimeUnit : ℝ)) halpha
    (by positivity)
  refine ⟨le_min (by linarith [hr.2]) ?_, min_le_left _ _⟩
  unfold newDataWeightUpperBound
  linarith [hu.2]

/-- One `update` keeps `sumOfWeights` in `[0, 1]`. -/
theorem update_keeps_weight_in_unit (alpha maxAge alphaTimeUnit : Nat)
    (s : DiscExponentialAverage ℝ) (value : ℝ) (now : Nat) (halpha : alpha ≤ 1000)
    (hs : 0 ≤ s.sumOfWeights ∧ s.sumOfWeights ≤ 1) :
    0 ≤ (update Real.rpow alpha maxAge alphaTimeUnit s value now).sumOfWeights ∧
    (update Real.rpow alpha maxAge alphaTimeUnit s value now).sumOfWeights ≤ 1 := by
  by_cases hnow : now ≤ s.prevTime
  · have hsame : update Real.rpow alpha maxAge alphaTimeUnit s value now = s := by
      unfold update
      rw [if_pos hnow]
    rw [hsame]
    exact hs
  · rw [update_of_later alpha maxAge alphaTimeUnit s value now (by omega)]
    have hr := floatingAlpha_rpow_mem_unit alpha
      (((now - s.prevTime : Nat) : ℝ) / (alphaTimeUnit : ℝ)) halpha (by positivity)
    have hw := newDataWeight_bounds alpha maxAge alphaTimeUnit (now - s.prevTime) halpha
    constructor
    · exact add_nonneg (mul_nonneg hr.1 hs.1) hw.1
    · have hmul : Real.rpow (floatingAlpha alpha)
            (((now - s.prevTime : Nat) : ℝ) / (alphaTimeUnit : ℝ)) * s.sumOfWeights
          ≤ Real.rpow (floatingAlpha alpha)
            (((now - s.prevTime : Nat) : ℝ) / (alphaTimeUnit : ℝ)) * 1 :=
        mul_le_mul_of_nonneg_left hs.2 hr.1
      show _ + _ ≤ (1 : ℝ)
      linarith [hw.2]

/-- A sequence of `update` calls keeps `sumOfWeights` in `[0, 1]`. -/
theorem updates_keep_weight_in_unit (alpha maxAge alphaTimeUnit : Nat) (halpha : alpha ≤ 1000)
    (calls : List (ℝ × Nat)) :
    ∀ s : DiscExponentialAverage ℝ, 0 ≤ s.sumOfWeights ∧ s.sumOfWeights ≤ 1 →
      0 ≤ (updates Real.rpow alpha maxAge alphaTimeUnit s calls).sumOfWeights ∧
      (updates Real.rpow alpha maxAge alphaTimeUnit s calls).sumOfWeights ≤ 1 := by
  induction calls with
  | nil =>
    intro s hs
    exact hs
  | cons call rest ih =>
    intro s hs
    exact ih _ (update_keeps_weight_in_unit alpha maxAge alphaTimeUnit s call.1 call.2 halpha hs)

/-- C22: for `alpha` in `[0, 1000]` and `alphaTimeUnit > 0`, every state reached from the initial
state by a sequence of `update` calls has `0 <= sumOfWeights <= 1`; an `update` that takes effect
multiplies the old weight by a factor `r = (alpha/1000)^(elapsed/alphaTimeUnit)` in `[0, 1]`,
over a positive elapsed time, and adds a weight `w` with
`0 <= w <= min (1 - r) (1 - (alpha/1000)^(maxAge/alphaTimeUnit))` (exact reals). -/
theorem sumOfWeights_in_unit_interval (alpha maxAge alphaTimeUnit : Nat)
    (calls : List (ℝ × Nat)) (halpha : alpha ≤ 1000) (hunit : 0 < alphaTimeUnit) :
    0 ≤ (updates Real.rpow alpha maxAge alphaTimeUnit init calls).sumOfWeights ∧
    (updates Real.rpow alpha maxAge alphaTimeUnit init calls).sumOfWeights ≤ 1 ∧
    ∀ (s : DiscExponentialAverage ℝ) (value : ℝ) (now : Nat), s.prevTime < now →
      ∃ r w : ℝ,
        r = Real.rpow (floatingAlpha alpha)
          (((now - s.prevTime : Nat) : ℝ) / (alphaTimeUnit : ℝ)) ∧
        0 < ((now - s.prevTime : Nat) : ℝ) / (alphaTimeUnit : ℝ) ∧
        0 ≤ r ∧ r ≤ 1 ∧ 0 ≤ w ∧
        w ≤ min (1 - r)
          (1 - Real.rpow (floatingAlpha alpha) ((maxAge : ℝ) / (alphaTimeUnit : ℝ))) ∧
        (update Real.rpow alpha maxAge alphaTimeUnit s value now).sumOfWeights
          = r * s.sumOfWeights + w := by
  have hinit : (0 : ℝ) ≤ (init : DiscExponentialAverage ℝ).sumOfWeights ∧
      (init : DiscExponentialAverage ℝ).sumOfWeights ≤ 1 := by
    constructor
    · exact le_refl _
    · show (0 : ℝ) ≤ 1
      norm_num
  obtain ⟨h0, h1⟩ := updates_keep_weight_in_unit alpha maxAge alphaTimeUnit halpha calls init
    hinit
  refine ⟨h0, h1, ?_⟩
  intro s value now hnow
  have hr := floatingAlpha_rpow_mem_unit alpha
    (((now - s.prevTime : Nat) : ℝ) / (alphaTimeUnit : ℝ)) halpha (by positivity)
  have hw := newDataWeight_bounds alpha maxAge alphaTimeUnit (now - s.prevTime) halpha
  have hpos : (0 : ℝ) < ((now - s.prevTime : Nat) : ℝ) / (alphaTimeUnit : ℝ) := by
    apply div_pos
    · exact_mod_cast Nat.sub_pos_of_lt hnow
    · exact_mod_cast hunit
  refine ⟨_, _, rfl, hpos, hr.1, hr.2, hw.1, le_refl _, ?_⟩
  rw [update_of_later alpha maxAge alphaTimeUnit s value now hnow]

/-- Witness of `sumOfWeights_in_unit_interval`: `alpha = 500`, `maxAge` of two seconds,
`alphaTimeUnit` of one second, samples at one second and at three seconds. -/
theorem sumOfWeights_in_unit_interval_witness :
    500 ≤ 1000 ∧ 0 < 1000000 ∧
    0 ≤ (updates Real.rpow 500 2000000 1000000 init
      [(5, 1000000), (7, 3000000)]).sumOfWeights ∧
    (updates Real.rpow 500 2000000 1000000 init
      [(5, 1000000), (7, 3000000)]).sumOfWeights ≤ 1 :=
  ⟨by decide, by decide,
    (sumOfWeights_in_unit_interval 500 2000000 1000000 [(5, 1000000), (7, 3000000)]
      (by decide) (by decide)).1,
    (sumOfWeights_in_unit_interval 500 2000000 1000000 [(5, 1000000), (7, 3000000)]
      (by decide) (by decide)).2.1⟩

/-- Non-negative sums with `sumOfData^2 <= sumOfSquaredData * sumOfWeights` leave
`sumOfSquaredData - 2 * sumOfData * v + sumOfWeights * v^2` non-negative for every `v`. -/
theorem spread_nonneg (weights data squared v : ℝ) (hw : 0 ≤ weights) (hq : 0 ≤ squared)
    (hcs : data ^ 2 ≤ squared * weights) :
    0 ≤ squared - 2 * data * v + weights * v ^ 2 := by
  rcases eq_or_lt_of_le hw with hzero | hpos
  · have hd2 : data ^ 2 ≤ 0 := by
      rw [← hzero, mul_zero] at hcs
      exact hcs
    have hd : data = 0 := by
      have := sq_nonneg data
      exact pow_eq_zero_iff (by norm_num) |>.mp (le_antisymm hd2 this)
    rw [hd, ← hzero]
    simpa using hq
  · have hmul : 0 ≤ weights * (squared - 2 * data * v + weights * v ^ 2) := by
      have hsq := sq_nonneg (data - weights * v)
      nlinarith [hsq, hcs]
    exact nonneg_of_mul_nonneg_right hmul hpos

/-- One `update` keeps the sums non-negative and keeps
`sumOfData^2 <= sumOfSquaredData * sumOfWeights`. -/
theorem update_keeps_cauchy_schwarz (alpha maxAge alphaTimeUnit : Nat)
    (s : DiscExponentialAverage ℝ) (value : ℝ) (now : Nat) (halpha : alpha ≤ 1000)
    (hs : 0 ≤ s.sumOfWeights ∧ 0 ≤ s.sumOfSquaredData ∧
      s.sumOfData ^ 2 ≤ s.sumOfSquaredData * s.sumOfWeights) :
    0 ≤ (update Real.rpow alpha maxAge alphaTimeUnit s value now).sumOfWeights ∧
    0 ≤ (update Real.rpow alpha maxAge alphaTimeUnit s value now).sumOfSquaredData ∧
    (update Real.rpow alpha maxAge alphaTimeUnit s value now).sumOfData ^ 2
      ≤ (update Real.rpow alpha maxAge alphaTimeUnit s value now).sumOfSquaredData
        * (update Real.rpow alpha maxAge alphaTimeUnit s value now).sumOfWeights := by
  by_cases hnow : now ≤ s.prevTime
  · have hsame : update Real.rpow alpha maxAge alphaTimeUnit s value now = s := by
      unfold update
      rw [if_pos hnow]
    rw [hsame]
    exact hs
  · rw [update_of_later alpha maxAge alphaTimeUnit s value now (by omega)]
    obtain ⟨hS, hQ, hcs⟩ := hs
    have hr := (floatingAlpha_rpow_mem_unit alpha
      (((now - s.prevTime : Nat) : ℝ) / (alphaTimeUnit : ℝ)) halpha (by positivity)).1
    have hw := (newDataWeight_bounds alpha maxAge alphaTimeUnit (now - s.prevTime) halpha).1
    have hv : Real.rpow value 2 = value ^ 2 := Real.rpow_two value
    have hkey := spread_nonneg s.sumOfWeights s.sumOfData s.sumOfSquaredData value hS hQ hcs
    generalize Real.rpow (floatingAlpha alpha)
      (((now - s.prevTime : Nat) : ℝ) / (alphaTimeUnit : ℝ)) = r at hr hw ⊢
    generalize min (1 - r) (newDataWeightUpperBound Real.rpow alpha maxAge alphaTimeUnit)
      = w at hw ⊢
    simp only [hv]
    refine ⟨add_nonneg (mul_nonneg hr hS) hw,
      add_nonneg (mul_nonneg hr hQ) (mul_nonneg hw (sq_nonneg value)), ?_⟩
    have hident : (r * s.sumOfSquaredData + w * value ^ 2) * (r * s.sumOfWeights + w)
        - (r * s.sumOfData + w * value) ^ 2
        = r ^ 2 * (s.sumOfSquaredData * s.sumOfWeights - s.sumOfData ^ 2)
          + r * w * (s.sumOfSquaredData - 2 * s.sumOfData * value
            + s.sumOfWeights * value ^ 2) := by
      ring
    have h1 : 0 ≤ r ^ 2 * (s.sumOfSquaredData * s.sumOfWeights - s.sumOfData ^ 2) :=
      mul_nonneg (sq_nonneg r) (sub_nonneg.mpr hcs)
    have h2 : 0 ≤ r * w * (s.sumOfSquaredData - 2 * s.sumOfData * value
        + s.sumOfWeights * value ^ 2) :=
      mul_nonneg (mul_nonneg hr hw) hkey
    linarith

/-- A sequence of `update` calls keeps the sums non-negative and keeps
`sumOfData^2 <= sumOfSquaredData * sumOfWeights`. -/
theorem updates_keep_cauchy_schwarz (alpha maxAge alphaTimeUnit : Nat) (halpha : alpha ≤ 1000)
    (calls : List (ℝ × Nat)) :
    ∀ s : DiscExponentialAverage ℝ,
      (0 ≤ s.sumOfWeights ∧ 0 ≤ s.sumOfSquaredData ∧
        s.sumOfData ^ 2 ≤ s.sumOfSquaredData * s.sumOfWeights) →
      0 ≤ (updates Real.rpow alpha maxAge alphaTimeUnit s calls).sumOfWeights ∧
      0 ≤ (updates Real.rpow alpha maxAge alphaTimeUnit s calls).sumOfSquaredData ∧
      (updates Real.rpow alpha maxAge alphaTimeUnit s calls).sumOfData ^ 2
        ≤ (updates Real.rpow alpha maxAge alphaTimeUnit s calls).sumOfSquaredData
          * (updates Real.rpow alpha maxAge alphaTimeUnit s calls).sumOfWeights := by
  induction calls with
  | nil =>
    intro s hs
    exact hs
  | cons call rest ih =>
    intro s hs
    exact ih _ (update_keeps_cauchy_schwarz alpha maxAge alphaTimeUnit s call.1 call.2 halpha hs)

/-- In a state with a sample available and `sumOfData^2 <= sumOfSquaredData * sumOfWeights`, the
quantity under the square root of `stddev()` is non-negative, and `stddev()` squared is that
quantity. -/
theorem stddev_radicand_nonneg (s : DiscExponentialAverage ℝ)
    (hcs : s.sumOfData ^ 2 ≤ s.sumOfSquaredData * s.sumOfWeights)
    (havail : s.available = true) :
    0 ≤ s.sumOfSquaredData / s.sumOfWeights - Real.rpow s.average 2 ∧
    stddev Real.sqrt Real.rpow s ^ 2
      = s.sumOfSquaredData / s.sumOfWeights - Real.rpow s.average 2 := by
  have hpos : 0 < s.sumOfWeights := by
    simpa [available] using havail
  have hrad : 0 ≤ s.sumOfSquaredData / s.sumOfWeights - Real.rpow s.average 2 := by
    have hv : Real.rpow s.average 2 = s.average ^ 2 := Real.rpow_two _
    rw [hv]
    unfold average
    have heq : s.sumOfSquaredData / s.sumOfWeights - (s.sumOfData / s.sumOfWeights) ^ 2
        = (s.sumOfSquaredData * s.sumOfWeights - s.sumOfData ^ 2) / s.sumOfWeights ^ 2 := by
      field_simp
      ring
    rw [heq]
    exact div_nonneg (sub_nonneg.mpr hcs) (sq_nonneg _)
  refine ⟨hrad, ?_⟩
  unfold stddev
  exact Real.sq_sqrt hrad

/-- C23: for `alpha` in `[0, 1000]`, every state reached from the initial state by a sequence of
`update` calls has `sumOfSquaredData * sumOfWeights >= sumOfData^2`; so whenever `available()`
holds, the quantity under the square root in `stddev()`,
`sumOfSquaredData / sumOfWeights - average()^2`, is non-negative, and `stddev()` is its square
root (exact reals). -/
theorem sums_satisfy_cauchy_schwarz (alpha maxAge alphaTimeUnit : Nat)
    (calls : List (ℝ × Nat)) (halpha : alpha ≤ 1000) :
    (updates Real.rpow alpha maxAge alphaTimeUnit init calls).sumOfSquaredData
        * (updates Real.rpow alpha maxAge alphaTimeUnit init calls).sumOfWeights
      ≥ (updates Real.rpow alpha maxAge alphaTimeUnit init calls).sumOfData ^ 2 ∧
    ((updates Real.rpow alpha maxAge alphaTimeUnit init calls).available = true →
      0 ≤ (updates Real.rpow alpha maxAge alphaTimeUnit init calls).sumOfSquaredData
            / (updates Real.rpow alpha maxAge alphaTimeUnit init calls).sumOfWeights
          - Real.rpow (updates Real.rpow alpha maxAge alphaTimeUnit init calls).average 2 ∧
      stddev Real.sqrt Real.rpow (updates Real.rpow alpha maxAge alphaTimeUnit init calls) ^ 2
        = (updates Real.rpow alpha maxAge alphaTimeUnit init calls).sumOfSquaredData
            / (updates Real.rpow alpha maxAge alphaTimeUnit init calls).sumOfWeights
          - Real.rpow (updates Real.rpow alpha maxAge alphaTimeUnit init calls).average 2) := by
  have hinit : (0 : ℝ) ≤ (init : DiscExponentialAverage ℝ).sumOfWeights ∧
      (0 : ℝ) ≤ (init : DiscExponentialAverage ℝ).sumOfSquaredData ∧
      (init : DiscExponentialAverage ℝ).sumOfData ^ 2
        ≤ (init : DiscExponentialAverage ℝ).sumOfSquaredData
          * (init : DiscExponentialAverage ℝ).sumOfWeights := by
    refine ⟨le_refl _, le_refl _, ?_⟩
    show (0 : ℝ) ^ 2 ≤ 0 * 0
    norm_num
  obtain ⟨_, _, hcs⟩ := updates_keep_cauchy_schwarz alpha maxAge alphaTimeUnit halpha calls
    init hinit
  exact ⟨hcs, fun havail => stddev_radicand_nonneg _ hcs havail⟩

/-- One second after construction, with `alpha = 500` and `maxAge` of two seconds, a first sample
is available. -/
theorem available_after_first_sample :
    (updates Real.rpow 500 2000000 1000000 init [(5, 1000000)]).available = true := by
  have hstate : updates Real.rpow 500 2000000 1000000 init [(5, 1000000)]
      = update Real.rpow 500 2000000 1000000 init 5 1000000 := rfl
  have hlater : (init : DiscExponentialAverage ℝ).prevTime < 1000000 := by
    show 0 < 1000000
    decide
  rw [hstate, update_of_later 500 2000000 1000000 init 5 1000000 hlater]
  have hr : Real.rpow (floatingAlpha 500)
      (((1000000 - (init : DiscExponentialAverage ℝ).prevTime : Nat) : ℝ)
        / ((1000000 : Nat) : ℝ)) < 1 :=
    floatingAlpha_rpow_lt_one 500 _ (by decide) (by
      show (0 : ℝ) < (((1000000 - 0 : Nat) : ℝ)) / ((1000000 : Nat) : ℝ)
      norm_num)
  have hu : Real.rpow (floatingAlpha 500) (((2000000 : Nat) : ℝ) / ((1000000 : Nat) : ℝ)) < 1 :=
    floatingAlpha_rpow_lt_one 500 _ (by decide) (by norm_num)
  have hw : 0 < min (1 - Real.rpow (floatingAlpha 500)
        (((1000000 - (init : DiscExponentialAverage ℝ).prevTime : Nat) : ℝ)
          / ((1000000 : Nat) : ℝ)))
      (newDataWeightUpperBound Real.rpow 500 2000000 1000000) := by
    unfold newDataWeightUpperBound
    exact lt_min (by linarith) (by linarith)
  have hzero : (init : DiscExponentialAverage ℝ).sumOfWeights = 0 := rfl
  simp only [available, hzero, mul_zero, zero_add, gt_iff_lt, decide_eq_true_eq]
  exact hw

/-- Witness of `sums_satisfy_cauchy_schwarz`: after a first sample the quantity under the square
root of `stddev()` is non-negative. -/
theorem sums_satisfy_cauchy_schwarz_witness :
    500 ≤ 1000 ∧
    (updates Real.rpow 500 2000000 1000000 init [(5, 1000000)]).available = true ∧
    0 ≤ (updates Real.rpow 500 2000000 1000000 init [(5, 1000000)]).sumOfSquaredData
          / (updates Real.rpow 500 2000000 1000000 init [(5, 1000000)]).sumOfWeights
        - Real.rpow (updates Real.rpow 500 2000000 1000000 init [(5, 1000000)]).average 2 :=
  ⟨by decide, available_after_first_sample,
    ((sums_satisfy_cauchy_schwarz 500 2000000 1000000 [(5, 1000000)] (by decide)).2
      available_after_first_sample).1⟩

/-- The state of `DiscExponentialAverage<500, 2000000, 1000000>` after a first
`update(5, 1000000)`: the sample has weight `1/2` and `prevTime` is one second. -/
theorem first_sample_state :
    update Real.rpow 500 2000000 1000000 (init : DiscExponentialAverage ℝ) 5 1000000
      = { sumOfWeights := 1 / 2
          sumOfData := 1 / 2 * 5
          sumOfSquaredData := 1 / 2 * Real.rpow 5 2
          prevTime := 1000000 } := by
  have hlater : (init : DiscExponentialAverage ℝ).prevTime < 1000000 := by
    show 0 < 1000000
    decide
  have ha : (floatingAlpha 500 : ℝ) = 1 / 2 := by
    unfold floatingAlpha
    norm_num
  have he : (((1000000 - (init : DiscExponentialAverage ℝ).prevTime : Nat) : ℝ))
      / ((1000000 : Nat) : ℝ) = 1 := by
    show (((1000000 - 0 : Nat) : ℝ)) / ((1000000 : Nat) : ℝ) = 1
    norm_num
  have hr : Real.rpow (1 / 2) 1 = 1 / 2 := Real.rpow_one _
  have hu : newDataWeightUpperBound Real.rpow 500 2000000 1000000 = 3 / 4 := by
    unfold newDataWeightUpperBound
    rw [ha, show (((2000000 : Nat) : ℝ)) / ((1000000 : Nat) : ℝ) = 2 by norm_num]
    have h2 : Real.rpow (1 / 2) 2 = (1 / 2) ^ 2 := Real.rpow_two _
    rw [h2]
    norm_num
  have hmin : min (1 - (1 / 2 : ℝ)) (3 / 4) = 1 / 2 := by
    rw [min_eq_left (by norm_num)]
    norm_num
  have hz1 : (init : DiscExponentialAverage ℝ).sumOfWeights = 0 := rfl
  have hz2 : (init : DiscExponentialAverage ℝ).sumOfData = 0 := rfl
  have hz3 : (init : DiscExponentialAverage ℝ).sumOfSquaredData = 0 := rfl
  rw [update_of_later 500 2000000 1000000 init 5 1000000 hlater]
  simp only [ha, he, hr, hu, hmin, hz1, hz2, hz3, mul_zero, zero_add]

/-- C15 (the code at the failing input): `DiscExponentialAverage<500, 2000000, 1000000>` after a
first `update(5, 1000000)` holds the weight `1/2` with `prevTime` at one second. One
`alphaTimeUnit` later, `completeness(2000000)` is `(1/2)^1000000 * 1/2`, because the exponent is
`now - prevTime` without the division by `alphaTimeUnit`; the factor that `update` applies for
that time is `(1/2)^(1000000/1000000) = 1/2`, which gives `1/4`. -/
theorem completeness_ignores_alphaTimeUnit :
    (update Real.rpow 500 2000000 1000000 (init : DiscExponentialAverage ℝ) 5 1000000).sumOfWeights
      = 1 / 2 ∧
    (update Real.rpow 500 2000000 1000000 (init : DiscExponentialAverage ℝ) 5 1000000).prevTime
      = 1000000 ∧
    completeness Real.rpow 500
        (update Real.rpow 500 2000000 1000000 (init : DiscExponentialAverage ℝ) 5 1000000) 2000000
      = (1 / 2 : ℝ) ^ (1000000 : ℕ) * (1 / 2) ∧
    Real.rpow (floatingAlpha 500) (((2000000 - 1000000 : Nat) : ℝ) / ((1000000 : Nat) : ℝ))
        * (update Real.rpow 500 2000000 1000000
            (init : DiscExponentialAverage ℝ) 5 1000000).sumOfWeights
      = 1 / 4 ∧
    completeness Real.rpow 500
        (update Real.rpow 500 2000000 1000000 (init : DiscExponentialAverage ℝ) 5 1000000) 2000000
      ≠ Real.rpow (floatingAlpha 500)
          (((2000000 - 1000000 : Nat) : ℝ) / ((1000000 : Nat) : ℝ))
        * (update Real.rpow 500 2000000 1000000
            (init : DiscExponentialAverage ℝ) 5 1000000).sumOfWeights := by
  have ha : (floatingAlpha 500 : ℝ) = 1 / 2 := by
    unfold floatingAlpha
    norm_num
  have hcode : completeness Real.rpow 500
      (update Real.rpow 500 2000000 1000000 (init : DiscExponentialAverage ℝ) 5 1000000) 2000000
      = (1 / 2 : ℝ) ^ (1000000 : ℕ) * (1 / 2) := by
    rw [first_sample_state]
    have hexp : (2000000 + ULLONG_MOD - 1000000) % ULLONG_MOD = 1000000 := by decide
    simp only [completeness, hexp, ha]
    have hpow : Real.rpow (1 / 2) ((1000000 : ℕ) : ℝ) = (1 / 2 : ℝ) ^ (1000000 : ℕ) :=
      Real.rpow_natCast _ _
    rw [hpow]
  have hclaim : Real.rpow (floatingAlpha 500)
        (((2000000 - 1000000 : Nat) : ℝ) / ((1000000 : Nat) : ℝ))
      * (update Real.rpow 500 2000000 1000000
          (init : DiscExponentialAverage ℝ) 5 1000000).sumOfWeights = 1 / 4 := by
    rw [first_sample_state, ha,
      show (((2000000 - 1000000 : Nat) : ℝ)) / ((1000000 : Nat) : ℝ) = 1 by norm_num]
    have hone : Real.rpow (1 / 2) 1 = 1 / 2 := Real.rpow_one _
    rw [hone]
    norm_num
  refine ⟨by rw [first_sample_state], by rw [first_sample_state], hcode, hclaim, ?_⟩
  rw [hcode, hclaim]
  have hlt : (1 / 2 : ℝ) ^ (1000000 : ℕ) < (1 / 2) ^ (1 : ℕ) :=
    pow_lt_pow_right_of_lt_one₀ (by norm_num) (by norm_num) (by norm_num)
  rw [pow_one] at hlt
  intro heq
  have hmul : (1 / 2 : ℝ) ^ (1000000 : ℕ) * (1 / 2) < 1 / 2 * (1 / 2) :=
    mul_lt_mul_of_pos_right hlt one_half_pos
  rw [heq] at hmul
  exact absurd hmul (by norm_num)

end Passenger
